import Mathlib

/-!
# PEA ingestion pipeline (`insercion.js`)

A shallow embedding of the polling pipeline of `insercion.js`:
`fetchNewResponses`, `downloadFile`, `insertIntoDatabase`,
`deleteRowFromSpreadsheet` and the loop `processResponsesAtIntervals`.

The program talks to three outside systems: the spreadsheet, the hosts the
attachments are downloaded from, and the MySQL connection.  Every call to one
of them is recorded in a trace, together with its outcome.  Whether a call
succeeds is decided by an `Env`, as a function of the logical time (the number
of calls issued so far); the state of the spreadsheet and of the database is
carried in a `World`.

Modelling choices:

* a batch is `response.data.values` as the Sheets API answers it with the
  default rendering: an array of rows, each an array of strings, of any length;
* a call that fails leaves the outside system as it was, and only a call of the
  program changes the sheet (no submission arrives while the pipeline runs);
* the database is one table behind one connection, with the transaction
  statements as MySQL defines them;
* `console.log` and `console.error` append to `World.log` and are not calls:
  they do not advance the logical time;
* the `while (true)` loop is run for a given number of iterations.
-/

namespace PEA

/-! ## JavaScript values -/

/-- The JavaScript values the pipeline handles: a cell of a row is a string, a
cell read past the end of a row is `undefined`, a resolved attachment is a
`Buffer` and a missing attachment is `null`. -/
inductive JSVal where
  | undefined
  | null
  | str (s : String)
  | buffer (bytes : List Nat)
  deriving DecidableEq, Repr

/-- One row of `response.data.values`: an array of string cells.  The API
drops trailing empty cells, so rows have varying lengths. -/
abbrev Row := List String

/-- The expression `row[i]`. -/
def cell (row : Row) (i : Nat) : JSVal :=
  match row.get? i with
  | some s => .str s
  | none => .undefined

/-- JavaScript truthiness (`if (v)`, `!v`). -/
def JSVal.truthy : JSVal → Bool
  | .undefined => false
  | .null => false
  | .str s => s != ""
  | .buffer _ => true

/-- The operator `typeof v`. -/
def JSVal.typeof : JSVal → String
  | .undefined => "undefined"
  | .null => "object"
  | .str _ => "string"
  | .buffer _ => "object"

/-- The characters `String.prototype.trim` strips: ECMAScript WhiteSpace and
LineTerminator. -/
def isTrimChar (c : Char) : Bool :=
  let n := c.toNat
  n == 0x09 || n == 0x0A || n == 0x0B || n == 0x0C || n == 0x0D || n == 0x20 ||
  n == 0xA0 || n == 0x1680 || (0x2000 ≤ n && n ≤ 0x200A) || n == 0x2028 ||
  n == 0x2029 || n == 0x202F || n == 0x205F || n == 0x3000 || n == 0xFEFF

/-- The method `s.trim()`. -/
def jsTrim (s : String) : String :=
  ⟨((s.data.dropWhile isTrimChar).reverse.dropWhile isTrimChar).reverse⟩

/-- The test `v.trim() === ''`.  The source only evaluates it when `v` is a
string (the two tests before it short-circuit). -/
def JSVal.trimIsEmpty : JSVal → Bool
  | .str s => jsTrim s == ""
  | _ => false

/-- The guard of line 90:
`!row[0] || typeof row[0] !== 'string' || row[0].trim() === ''`. -/
def skipRow (row : Row) : Bool :=
  !(cell row 0).truthy || (cell row 0).typeof != "string" || (cell row 0).trimIsEmpty

/-! ## The outside world -/

/-- The four statements `insertIntoDatabase` sends through `queryAsync`; the
insert carries its parameter array. -/
inductive Stmt where
  | startTransaction
  | insert (params : List JSVal)
  | commit
  | rollback
  deriving DecidableEq, Repr

/-- A call recorded in the trace, with its outcome: a call to an outside system,
or one of the local steps `authorize` and `sleep`. -/
inductive Event where
  | authorize (ok : Bool)
  | valuesGet (range : String) (ok : Bool)
  | download (url : JSVal) (result : Option (List Nat))
  | query (stmt : Stmt) (ok : Bool)
  | clear (range : String) (ok : Bool)
  | sleep (ms : Nat)
  deriving DecidableEq, Repr

/-- An event of the trace with the position, in the batch, of the row during
whose processing it was issued (`none` outside the processing of a row).  The
position is bookkeeping only: nothing in the program or the environment reads
it. -/
structure Issued where
  row : Option Nat
  ev : Event
  deriving DecidableEq, Repr

/-- The table `practica`, seen through one connection: the committed records
and the records of the open transaction, if one is open.  A record is the
parameter array of its insert. -/
structure Store where
  committed : List (List JSVal)
  pending : Option (List (List JSVal))
  deriving DecidableEq, Repr

/-- Effect of a statement that succeeds, as MySQL defines it: `START
TRANSACTION` commits a transaction that is still open and opens a new one; an
insert joins the open transaction (or is committed at once when none is open);
`COMMIT` makes the open transaction durable and `ROLLBACK` discards it. -/
def Store.exec (s : Store) : Stmt → Store
  | .startTransaction => ⟨s.committed ++ s.pending.getD [], some []⟩
  | .insert params =>
    match s.pending with
    | some p => ⟨s.committed, some (p ++ [params])⟩
    | none => ⟨s.committed ++ [params], none⟩
  | .commit => ⟨s.committed ++ s.pending.getD [], none⟩
  | .rollback => ⟨s.committed, none⟩

/-- State of the outside systems and the record of what the program did:
`sheet` is what `spreadsheets.values.get` answers for the data range
(`none`: the answer has no `values`), `store` the database, `trace` the calls
issued so far and `log` the console output. -/
structure World where
  sheet : Option (List Row)
  store : Store
  trace : List Issued
  log : List String
  deriving DecidableEq, Repr

/-- Outcome of each outside call, as a function of the logical time at which it
is issued.  A failed call changes nothing in the outside system. -/
structure Env where
  authorizeOk : Nat → Bool
  valuesGetOk : Nat → Bool
  download : Nat → JSVal → Option (List Nat)
  queryOk : Nat → Stmt → Bool
  clearOk : Nat → Bool

/-- Result of an `async` function: it returns a value or throws. -/
inductive Res (α : Type) where
  | ok (a : α)
  | threw (msg : String)
  deriving DecidableEq, Repr

/-- Logical time: the number of calls issued so far. -/
def World.time (w : World) : Nat := w.trace.length

/-- Record a call in the trace. -/
def World.emit (w : World) (k : Option Nat) (e : Event) : World :=
  ⟨w.sheet, w.store, w.trace ++ [⟨k, e⟩], w.log⟩

/-- The calls `console.log` and `console.error`. -/
def World.say (w : World) (msg : String) : World :=
  ⟨w.sheet, w.store, w.trace, w.log ++ [msg]⟩

/-! ## The functions of `insercion.js` -/

/-- Function `authorize`: it throws when `PRIVATE_KEY` is not configured. -/
def authorize (env : Env) (w : World) : Res Unit × World :=
  let ok := env.authorizeOk w.time
  let w1 := w.emit none (.authorize ok)
  if ok then (.ok (), w1) else (.threw "authorize", w1)

/-- The call `sheets.spreadsheets.values.get` of `fetchNewResponses`; it
answers `response.data.values`. -/
def valuesGet (env : Env) (range : String) (w : World) : Res (Option (List Row)) × World :=
  let ok := env.valuesGetOk w.time
  let w1 := w.emit none (.valuesGet range ok)
  if ok then (.ok w.sheet, w1) else (.threw "values.get", w1)

/-- Function `fetchNewResponses`: `response.data.values || []`, and every
error is thrown again with a prefixed message. -/
def fetchNewResponses (env : Env) (w : World) : Res (List Row) × World :=
  match authorize env w with
  | (.threw msg, w1) => (.threw ("Error al obtener nuevas respuestas: " ++ msg), w1)
  | (.ok _, w1) =>
    match valuesGet env "Hoja1!B2:P" w1 with
    | (.threw msg, w2) => (.threw ("Error al obtener nuevas respuestas: " ++ msg), w2)
    | (.ok values, w2) => (.ok (values.getD []), w2)

/-- Function `downloadFile`. -/
def downloadFile (env : Env) (k : Option Nat) (url : JSVal) (w : World) :
    Res JSVal × World :=
  let r := env.download w.time url
  let w1 := w.emit k (.download url r)
  match r with
  | some bytes => (.ok (.buffer bytes), w1)
  | none => (.threw "download", w1)

/-- The function `queryAsync`: send one statement over the connection. -/
def queryAsync (env : Env) (k : Option Nat) (stmt : Stmt) (w : World) : Res Unit × World :=
  let ok := env.queryOk w.time stmt
  let w1 := w.emit k (.query stmt ok)
  if ok then (.ok (), ⟨w1.sheet, w1.store.exec stmt, w1.trace, w1.log⟩)
  else (.threw "query", w1)

/-- The call `sheets.spreadsheets.values.clear` of `deleteRowFromSpreadsheet`:
when it succeeds the whole data range is empty. -/
def valuesClear (env : Env) (k : Option Nat) (range : String) (w : World) :
    Res Unit × World :=
  let ok := env.clearOk w.time
  let w1 := w.emit k (.clear range ok)
  if ok then (.ok (), ⟨none, w1.store, w1.trace, w1.log⟩) else (.threw "values.clear", w1)

/-- Function `deleteRowFromSpreadsheet`: the clear in a `try`, the error logged
in the `catch`. -/
def deleteRowFromSpreadsheet (env : Env) (k : Option Nat) (sheetName : String)
    (w : World) : Res Unit × World :=
  match valuesClear env k (sheetName ++ "!A2:P") w with
  | (.ok _, w1) => (.ok (), w1.say "Datos eliminados de la hoja de cálculo de Google.")
  | (.threw _, w1) => (.ok (), w1.say "Error al borrar datos de la hoja de cálculo de Google:")

/-- The step `if (url) { contenido = await downloadFile(url) }` with
`contenido` initially `null`. -/
def resolveAttachment (env : Env) (k : Option Nat) (url : JSVal) (w : World) :
    Res JSVal × World :=
  if url.truthy then downloadFile env k url w else (.ok .null, w)

/-- The parameter array of the insert of line 111. -/
def insertParams (row : Row) (descarga carta : JSVal) : List JSVal :=
  [cell row 0, cell row 1, cell row 2, cell row 3, cell row 4, descarga, cell row 6,
   cell row 7, cell row 8, cell row 9, cell row 10, cell row 11, cell row 12, carta]

/-- The `try` block of the loop of `insertIntoDatabase` for the row at position
`k`: `.ok` when the loop goes on to the next row (also after `continue`),
`.threw` when control passes to the `catch`. -/
def tryRow (env : Env) (k : Nat) (row : Row) (w : World) : Res Unit × World :=
  if skipRow row then
    (.ok (), (w.say "Fila vacia o correo no válido:").say "Correo:")
  else
    match resolveAttachment env (some k) (cell row 13) w with
    | (.threw msg, w1) => (.threw msg, w1)
    | (.ok carta, w1) =>
      match resolveAttachment env (some k) (cell row 5) w1 with
      | (.threw msg, w2) => (.threw msg, w2)
      | (.ok descarga, w2) =>
        match queryAsync env (some k) (.insert (insertParams row descarga carta)) w2 with
        | (.threw msg, w3) => (.threw msg, w3)
        | (.ok _, w3) =>
          deleteRowFromSpreadsheet env (some k) "Hoja1"
            (w3.say "Datos insertados en la base de datos:")

/-- The loop of `insertIntoDatabase` from the row at position `k` on, with what
follows it: the `catch` sends `ROLLBACK` and returns, the end of the loop sends
`COMMIT`. -/
def insertRows (env : Env) : Nat → List Row → World → Res Unit × World
  | _, [], w => queryAsync env none .commit w
  | k, row :: rest, w =>
    match tryRow env k row w with
    | (.ok _, w1) => insertRows env (k + 1) rest w1
    | (.threw _, w1) =>
      queryAsync env none .rollback (w1.say "Error al insertar datos en la base de datos:")

/-- Function `insertIntoDatabase`. -/
def insertIntoDatabase (env : Env) (data : List Row) (w : World) : Res Unit × World :=
  match queryAsync env none .startTransaction w with
  | (.threw msg, w1) => (.threw msg, w1)
  | (.ok _, w1) => insertRows env 0 data w1

/-- The `try` block of the loop of `processResponsesAtIntervals`. -/
def pollOnce (env : Env) (w : World) : Res Unit × World :=
  match fetchNewResponses env w with
  | (.threw msg, w1) => (.threw msg, w1)
  | (.ok newResponses, w1) =>
    if newResponses.length > 0 then
      match authorize env w1 with
      | (.threw msg, w2) => (.threw msg, w2)
      | (.ok _, w2) => insertIntoDatabase env newResponses w2
    else
      (.ok (), w1.say "No se encontraron nuevas respuestas. Esperando el siguiente intervalo...")

/-- The function `sleep`. -/
def sleep (ms : Nat) (w : World) : Res Unit × World :=
  (.ok (), w.emit none (.sleep ms))

/-- One iteration of the loop of `processResponsesAtIntervals`: the `try`
block, the `catch` that logs, the `finally` that sleeps. -/
def loopBody (env : Env) (w : World) : Res Unit × World :=
  match pollOnce env w with
  | (.ok _, w1) => sleep (60 * 1000) w1
  | (.threw _, w1) => sleep (60 * 1000) (w1.say "Error al procesar nuevas respuestas:")

/-- Function `processResponsesAtIntervals`, the `while (true)` loop, run for at
most `fuel` iterations: `none` when the fuel ran out with the loop still
going, `some msg` when an error left the loop. -/
def processResponsesAtIntervals (env : Env) : Nat → World → Option String × World
  | 0, w => (none, w)
  | fuel + 1, w =>
    match loopBody env w with
    | (.ok _, w1) => processResponsesAtIntervals env fuel w1
    | (.threw msg, w1) => (some msg, w1)

/-! ## Runs of one row and of a batch, as relations on traces -/

/-- How an attachment cell is resolved: a falsy cell gives `null` with no
call, a truthy one gives the downloaded bytes after one successful download. -/
inductive Resolved : JSVal → JSVal → List Event → Prop
  | absent (url : JSVal) : url.truthy = false → Resolved url .null []
  | fetched (url : JSVal) (bytes : List Nat) : url.truthy = true →
      Resolved url (.buffer bytes) [.download url (some bytes)]

/-- The five ways the `try` block can run for one row, with the calls it
issues, its result, and the store and sheet it leaves. -/
inductive RowRun (row : Row) (st : Store) (sh : Option (List Row)) :
    List Event → Res Unit → Store → Option (List Row) → Prop
  | skipped : skipRow row = true → RowRun row st sh [] (.ok ()) st sh
  | cartaFailed : skipRow row = false → (cell row 13).truthy = true →
      RowRun row st sh [.download (cell row 13) none] (.threw "download") st sh
  | descargaFailed (c : JSVal) (e13 : List Event) : skipRow row = false →
      Resolved (cell row 13) c e13 → (cell row 5).truthy = true →
      RowRun row st sh (e13 ++ [.download (cell row 5) none]) (.threw "download") st sh
  | insertFailed (c d : JSVal) (e13 e5 : List Event) : skipRow row = false →
      Resolved (cell row 13) c e13 → Resolved (cell row 5) d e5 →
      RowRun row st sh (e13 ++ e5 ++ [.query (.insert (insertParams row d c)) false])
        (.threw "query") st sh
  | inserted (c d : JSVal) (e13 e5 : List Event) (okc : Bool) : skipRow row = false →
      Resolved (cell row 13) c e13 → Resolved (cell row 5) d e5 →
      RowRun row st sh
        (e13 ++ e5 ++ [.query (.insert (insertParams row d c)) true, .clear "Hoja1!A2:P" okc])
        (.ok ()) (st.exec (.insert (insertParams row d c))) (if okc then none else sh)

/-- Tag the calls of a row with its position. -/
def tagged (k : Nat) (evs : List Event) : List Issued := evs.map (Issued.mk (some k))

/-- The ways the loop and what follows it can run from position `k` on. -/
inductive RowsRun : Nat → List Row → Store → List Issued → Res Unit → Store → Prop
  | commitOk (k : Nat) (st : Store) :
      RowsRun k [] st [⟨none, .query .commit true⟩] (.ok ()) (st.exec .commit)
  | commitFailed (k : Nat) (st : Store) :
      RowsRun k [] st [⟨none, .query .commit false⟩] (.threw "query") st
  | next (k : Nat) (row : Row) (rest : List Row) (st st1 st2 : Store)
      (sh sh1 : Option (List Row)) (evs : List Event) (evs2 : List Issued) (r : Res Unit) :
      RowRun row st sh evs (.ok ()) st1 sh1 → RowsRun (k + 1) rest st1 evs2 r st2 →
      RowsRun k (row :: rest) st (tagged k evs ++ evs2) r st2
  | rollbackOk (k : Nat) (row : Row) (rest : List Row) (st st1 : Store)
      (sh sh1 : Option (List Row)) (evs : List Event) (msg : String) :
      RowRun row st sh evs (.threw msg) st1 sh1 →
      RowsRun k (row :: rest) st (tagged k evs ++ [⟨none, .query .rollback true⟩]) (.ok ())
        (st1.exec .rollback)
  | rollbackFailed (k : Nat) (row : Row) (rest : List Row) (st st1 : Store)
      (sh sh1 : Option (List Row)) (evs : List Event) (msg : String) :
      RowRun row st sh evs (.threw msg) st1 sh1 →
      RowsRun k (row :: rest) st (tagged k evs ++ [⟨none, .query .rollback false⟩])
        (.threw "query") st1

/-- The calls issued between two states of the world. -/
def World.since (w w1 : World) : List Issued := w1.trace.drop w.trace.length

/-- The ways `insertIntoDatabase` can run. -/
inductive BatchRun (data : List Row) (st : Store) : List Issued → Res Unit → Store → Prop
  | startFailed : BatchRun data st [⟨none, .query .startTransaction false⟩] (.threw "query") st
  | started (evs : List Issued) (r : Res Unit) (st1 : Store) :
      RowsRun 0 data (st.exec .startTransaction) evs r st1 →
      BatchRun data st (⟨none, .query .startTransaction true⟩ :: evs) r st1

/-- A download or an insert that failed. -/
def Event.rowCallFailed : Event → Bool
  | .download _ none => true
  | .query (.insert _) false => true
  | _ => false

/-- A `START TRANSACTION`, `COMMIT` or `ROLLBACK` that failed. -/
def Event.txnFailed : Event → Bool
  | .query .startTransaction false => true
  | .query .commit false => true
  | .query .rollback false => true
  | _ => false

/-- The statement a call sends to the store, if it is a call to the store. -/
def Event.statement : Event → Option Stmt
  | .query stmt _ => some stmt
  | _ => none

/-- The statements sent to the store by a sequence of calls, in order. -/
def statements (evs : List Issued) : List Stmt :=
  evs.filterMap (fun e => e.ev.statement)

/-- The rows of a batch that pass the guard of line 90, each with its position
in the batch; `k` is the position of the first row. -/
def validRows (k : Nat) (rows : List Row) : List (Nat × Row) :=
  (List.enumFrom k rows).filter (fun a => !skipRow a.2)

/-- The record built, in a run with the given calls, from a row at a given
position of the batch: the cells of the row, with the two attachment cells
replaced by what they resolve to, where the calls of the run for that position
are exactly the downloads that answered these attachments, the successful
insert of the record, and the clear. -/
def BuiltFrom (evs : List Issued) (a : Nat × Row) (record : List JSVal) : Prop :=
  ∃ c d e13 e5 okc, Resolved (cell a.2 13) c e13 ∧ Resolved (cell a.2 5) d e5 ∧
    record = insertParams a.2 d c ∧
    evs.filter (fun x => decide (x.row = some a.1)) =
      tagged a.1 (e13 ++ e5 ++ [.query (.insert record) true, .clear "Hoja1!A2:P" okc])

/-- Two worlds agree, up to `g`, on the calls issued so far and on the store. -/
def Agree {β : Type} (g : Event → β) (w1 w2 : World) : Prop :=
  w1.store = w2.store ∧ w1.trace.map (fun e => g e.ev) = w2.trace.map (fun e => g e.ev)

/-- The second batch is the first one with some rows removed, all of them rows
that the guard of line 90 skips. -/
inductive SkipsOnly : List Row → List Row → Prop
  | nil : SkipsOnly [] []
  | keep (row : Row) (l1 l2 : List Row) : SkipsOnly l1 l2 → SkipsOnly (row :: l1) (row :: l2)
  | drop (row : Row) (l1 l2 : List Row) : skipRow row = true → SkipsOnly l1 l2 →
      SkipsOnly (row :: l1) l2

/-- The environment with the outcomes of the clear calls replaced. -/
def Env.withClearOk (env : Env) (f : Nat → Bool) : Env :=
  ⟨env.authorizeOk, env.valuesGetOk, env.download, env.queryOk, f⟩

/-- A call with the outcome of a clear forgotten. -/
def Event.forgetClearOutcome : Event → Event
  | .clear range _ => .clear range true
  | e => e

/-! ## Concrete batches and environments -/

/-- An environment in which every call succeeds and every download answers
three bytes. -/
def envAllOk : Env :=
  ⟨fun _ => true, fun _ => true, fun _ _ => some [80, 68, 70], fun _ _ => true, fun _ => true⟩

/-- An environment in which every download fails and every other call
succeeds. -/
def envDownloadFails : Env :=
  ⟨fun _ => true, fun _ => true, fun _ _ => none, fun _ _ => true, fun _ => true⟩

/-- An environment in which every clear fails and every other call
succeeds. -/
def envClearFails : Env :=
  ⟨fun _ => true, fun _ => true, fun _ _ => some [80, 68, 70], fun _ _ => true, fun _ => false⟩

/-- An environment in which every download and every clear fails and the
statement sent at time 7 is refused; every other call succeeds. -/
def envRollbackRefusedOnce : Env :=
  ⟨fun _ => true, fun _ => true, fun _ _ => none, fun t _ => t != 7, fun _ => false⟩

/-- An environment in which every clear fails and the statement sent at time 9
is refused; every other call succeeds. -/
def envCommitRefusedOnce : Env :=
  ⟨fun _ => true, fun _ => true, fun _ _ => some [80, 68, 70], fun t _ => t != 9,
    fun _ => false⟩

/-- An environment in which the database refuses `COMMIT` and every other call
succeeds. -/
def envCommitRefused : Env :=
  ⟨fun _ => true, fun _ => true, fun _ _ => some [80, 68, 70],
    fun _ stmt => decide (stmt ≠ .commit), fun _ => true⟩

/-- The world in which the second iteration of the loop calls
`insertIntoDatabase`: after the first iteration, the fetch of the second and
its authorization. -/
def secondCallWorld (env : Env) (w : World) : World :=
  (authorize env (fetchNewResponses env (loopBody env w).2).2).2

/-- An environment in which the database refuses every statement. -/
def envDatabaseDown : Env :=
  ⟨fun _ => true, fun _ => true, fun _ _ => some [80, 68, 70], fun _ _ => false, fun _ => true⟩

/-- A row with an email and no attachment. -/
def rowPlain : Row := ["ana@unam.mx", "Video", "Derivadas"]

/-- A row with an email and a download URL in cell 5. -/
def rowWithFile : Row :=
  ["luis@unam.mx", "Documento", "Integrales", "Cálculo", "Apuntes", "https://files.example/a.pdf"]

/-- A row whose email cell is the empty string. -/
def rowNoEmail : Row := ["", "Video", "Límites"]

/-- An environment in which the download issued at time 6 fails and every
other call, at any time, succeeds. -/
def envOneDownloadFails : Env :=
  ⟨fun _ => true, fun _ => true, fun t _ => if t = 6 then none else some [80, 68, 70],
    fun _ _ => true, fun _ => true⟩

/-- A row with an email and both attachment URLs. -/
def rowTwoFiles : Row :=
  ["eva@unam.mx", "Documento", "Series", "Cálculo", "Notas", "https://files.example/b.pdf",
   "Pública", "Alumnos", "Eva", "Ruiz", "Luna", "Mexicana", "UNAM",
   "https://files.example/carta.pdf"]

/-- A world whose sheet holds the given rows, with an empty table and no open
transaction. -/
def worldWith (rows : List Row) : World := ⟨some rows, ⟨[], none⟩, [], []⟩


/-! ## Lemmas on the primitives -/

theorem resolveAttachment_run (env : Env) (k : Nat) (url : JSVal) (w : World) :
    (∃ v evs, Resolved url v evs ∧
      resolveAttachment env (some k) url w =
        (.ok v, ⟨w.sheet, w.store, w.trace ++ tagged k evs, w.log⟩)) ∨
    (url.truthy = true ∧
      resolveAttachment env (some k) url w =
        (.threw "download",
          ⟨w.sheet, w.store, w.trace ++ tagged k [.download url none], w.log⟩)) := by
  unfold resolveAttachment
  by_cases hu : url.truthy = true
  · cases hd : env.download w.time url with
    | none =>
      refine Or.inr ⟨hu, ?_⟩
      simp [hu, downloadFile, World.emit, hd, tagged]
    | some bytes =>
      refine Or.inl ⟨.buffer bytes, [.download url (some bytes)],
        Resolved.fetched url bytes hu, ?_⟩
      simp [hu, downloadFile, World.emit, hd, tagged]
  · have hf : url.truthy = false := by simpa using hu
    refine Or.inl ⟨.null, [], Resolved.absent url hf, ?_⟩
    simp [hf, tagged]

theorem queryAsync_run (env : Env) (k : Option Nat) (stmt : Stmt) (w : World) :
    queryAsync env k stmt w =
        (.ok (), ⟨w.sheet, w.store.exec stmt, w.trace ++ [⟨k, .query stmt true⟩], w.log⟩) ∨
    queryAsync env k stmt w =
        (.threw "query", ⟨w.sheet, w.store, w.trace ++ [⟨k, .query stmt false⟩], w.log⟩) := by
  unfold queryAsync
  cases hq : env.queryOk w.time stmt with
  | true => left; simp [World.emit]
  | false => right; simp [World.emit]

theorem deleteRowFromSpreadsheet_eq (env : Env) (k : Option Nat) (w : World) :
    ∃ lg, deleteRowFromSpreadsheet env k "Hoja1" w =
      (.ok (), ⟨if env.clearOk w.trace.length = true then none else w.sheet, w.store,
        w.trace ++ [⟨k, .clear "Hoja1!A2:P" (env.clearOk w.trace.length)⟩], lg⟩) := by
  have hr : "Hoja1" ++ "!A2:P" = "Hoja1!A2:P" := by decide
  unfold deleteRowFromSpreadsheet valuesClear
  rw [hr]
  cases hc : env.clearOk w.trace.length with
  | true =>
    exact ⟨w.log ++ ["Datos eliminados de la hoja de cálculo de Google."],
      by simp [World.emit, World.say, World.time, hc]⟩
  | false =>
    exact ⟨w.log ++ ["Error al borrar datos de la hoja de cálculo de Google:"],
      by simp [World.emit, World.say, World.time, hc]⟩

theorem tryRow_run (env : Env) (k : Nat) (row : Row) (w : World) :
    ∃ evs, (tryRow env k row w).2.trace = w.trace ++ tagged k evs ∧
      RowRun row w.store w.sheet evs (tryRow env k row w).1
        (tryRow env k row w).2.store (tryRow env k row w).2.sheet := by
  unfold tryRow
  by_cases hs : skipRow row = true
  · refine ⟨[], ?_, ?_⟩
    · simp only [hs, if_true, World.say, tagged, List.map_nil, List.append_nil]
    · simp only [hs, if_true, World.say]
      exact RowRun.skipped hs
  · have hs2 : skipRow row = false := by simpa using hs
    simp only [hs2, Bool.false_eq_true, if_false]
    rcases resolveAttachment_run env k (cell row 13) w with ⟨c, e13, hc, h13⟩ | ⟨ht, h13⟩
    · rw [h13]
      simp only
      rcases resolveAttachment_run env k (cell row 5)
          ⟨w.sheet, w.store, w.trace ++ tagged k e13, w.log⟩ with ⟨d, e5, hd, h5⟩ | ⟨ht5, h5⟩
      · rw [h5]
        simp only
        rcases queryAsync_run env (some k) (.insert (insertParams row d c))
          ⟨w.sheet, w.store, w.trace ++ tagged k e13 ++ tagged k e5, w.log⟩ with hq | hq
        · rw [hq]
          simp only [World.say]
          obtain ⟨lg, hdel⟩ := deleteRowFromSpreadsheet_eq env (some k)
            ⟨w.sheet, w.store.exec (.insert (insertParams row d c)),
              w.trace ++ tagged k e13 ++ tagged k e5 ++
                [⟨some k, .query (.insert (insertParams row d c)) true⟩],
              w.log ++ ["Datos insertados en la base de datos:"]⟩
          rw [hdel]
          refine ⟨_, ?_, RowRun.inserted c d e13 e5 _ hs2 hc hd⟩
          simp [tagged]
        · rw [hq]
          refine ⟨_, ?_, RowRun.insertFailed c d e13 e5 hs2 hc hd⟩
          simp [tagged]
      · rw [h5]
        refine ⟨_, ?_, RowRun.descargaFailed c e13 hs2 hc ht5⟩
        simp [tagged]
    · rw [h13]
      exact ⟨_, rfl, RowRun.cartaFailed hs2 ht⟩

theorem insertRows_run (env : Env) (rows : List Row) :
    ∀ (k : Nat) (w : World), ∃ evs, (insertRows env k rows w).2.trace = w.trace ++ evs ∧
      RowsRun k rows w.store evs (insertRows env k rows w).1 (insertRows env k rows w).2.store := by
  induction rows with
  | nil =>
    intro k w
    unfold insertRows
    rcases queryAsync_run env none .commit w with h | h
    · rw [h]; exact ⟨_, rfl, RowsRun.commitOk k w.store⟩
    · rw [h]; exact ⟨_, rfl, RowsRun.commitFailed k w.store⟩
  | cons row rest ih =>
    intro k w
    obtain ⟨evs, htr, hrun⟩ := tryRow_run env k row w
    unfold insertRows
    rcases hrow : tryRow env k row w with ⟨r, w1⟩
    rw [hrow] at htr hrun
    simp only at htr hrun
    cases r with
    | ok u =>
      obtain ⟨evs2, htr2, hrun2⟩ := ih (k + 1) w1
      refine ⟨tagged k evs ++ evs2, ?_, ?_⟩
      · simp only [htr2, htr, List.append_assoc]
      · exact RowsRun.next k row rest w.store w1.store _ w.sheet w1.sheet evs evs2 _ hrun hrun2
    | threw msg =>
      simp only
      rcases queryAsync_run env none .rollback
        (w1.say "Error al insertar datos en la base de datos:") with h | h
      · rw [h]
        refine ⟨tagged k evs ++ [⟨none, .query .rollback true⟩], ?_, ?_⟩
        · simp only [World.say, htr, List.append_assoc]
        · exact RowsRun.rollbackOk k row rest w.store w1.store w.sheet w1.sheet evs msg hrun
      · rw [h]
        refine ⟨tagged k evs ++ [⟨none, .query .rollback false⟩], ?_, ?_⟩
        · simp only [World.say, htr, List.append_assoc]
        · exact RowsRun.rollbackFailed k row rest w.store w1.store w.sheet w1.sheet evs msg hrun

theorem since_of_trace {w w1 : World} {evs : List Issued} (h : w1.trace = w.trace ++ evs) :
    w.since w1 = evs := by
  simp [World.since, h]

theorem insertIntoDatabase_trace (env : Env) (data : List Row) (w : World) :
    ∃ evs, (insertIntoDatabase env data w).2.trace = w.trace ++ evs ∧
      BatchRun data w.store evs (insertIntoDatabase env data w).1
        (insertIntoDatabase env data w).2.store := by
  unfold insertIntoDatabase
  rcases queryAsync_run env none .startTransaction w with h | h
  · rw [h]
    simp only
    obtain ⟨evs, htr, hrun⟩ := insertRows_run env data 0
      ⟨w.sheet, w.store.exec .startTransaction,
        w.trace ++ [⟨none, .query .startTransaction true⟩], w.log⟩
    refine ⟨⟨none, .query .startTransaction true⟩ :: evs, ?_, BatchRun.started evs _ _ hrun⟩
    simp only [htr, List.append_assoc, List.singleton_append]
  · rw [h]
    exact ⟨_, rfl, BatchRun.startFailed⟩

theorem insertIntoDatabase_run (env : Env) (data : List Row) (w : World) :
    BatchRun data w.store (w.since (insertIntoDatabase env data w).2)
      (insertIntoDatabase env data w).1 (insertIntoDatabase env data w).2.store := by
  obtain ⟨evs, htr, hrun⟩ := insertIntoDatabase_trace env data w
  rw [since_of_trace htr]
  exact hrun

/-! ## Properties of runs -/

theorem mem_tagged {k : Nat} {evs : List Event} {e : Issued} (h : e ∈ tagged k evs) :
    e.row = some k ∧ e.ev ∈ evs := by
  simp only [tagged, List.mem_map] at h
  obtain ⟨a, ha, rfl⟩ := h
  exact ⟨rfl, ha⟩

theorem Resolved.noFailure {url v : JSVal} {evs : List Event} (h : Resolved url v evs) :
    ∀ e ∈ evs, e.rowCallFailed = false := by
  cases h with
  | absent _ => simp
  | fetched bytes _ => simp [Event.rowCallFailed]

theorem RowRun.ok_noFailure {row : Row} {st st1 : Store} {sh sh1 : Option (List Row)}
    {evs : List Event} (h : RowRun row st sh evs (.ok ()) st1 sh1) :
    ∀ e ∈ evs, e.rowCallFailed = false := by
  cases h with
  | skipped _ => simp
  | inserted c d e13 e5 okc _ h13 h5 =>
    intro e he
    simp only [List.mem_append, List.mem_cons, List.mem_singleton, List.not_mem_nil,
      or_false] at he
    rcases he with (he | he) | he | he
    · exact h13.noFailure e he
    · exact h5.noFailure e he
    · subst he; rfl
    · subst he; rfl

theorem RowRun.threw_failure {row : Row} {st st1 : Store} {sh sh1 : Option (List Row)}
    {evs : List Event} {msg : String} (h : RowRun row st sh evs (.threw msg) st1 sh1) :
    st1 = st ∧ ∃ e ∈ evs, e.rowCallFailed = true := by
  cases h with
  | cartaFailed _ _ => exact ⟨rfl, _, List.mem_singleton.2 rfl, rfl⟩
  | descargaFailed c e13 _ _ _ =>
    exact ⟨rfl, _, List.mem_append_right _ (List.mem_singleton.2 rfl), rfl⟩
  | insertFailed c d e13 e5 _ _ _ =>
    exact ⟨rfl, _, List.mem_append_right _ (List.mem_singleton.2 rfl), rfl⟩

theorem RowRun.ok_store {row : Row} {st st1 : Store} {sh sh1 : Option (List Row)}
    {evs : List Event} (h : RowRun row st sh evs (.ok ()) st1 sh1)
    (p : List (List JSVal)) (hp : st.pending = some p) :
    (skipRow row = true ∧ st1 = st ∧ evs = []) ∨
    (skipRow row = false ∧ ∃ c d e13 e5 okc,
      Resolved (cell row 13) c e13 ∧ Resolved (cell row 5) d e5 ∧
      evs = e13 ++ e5 ++
        [.query (.insert (insertParams row d c)) true, .clear "Hoja1!A2:P" okc] ∧
      st1 = ⟨st.committed, some (p ++ [insertParams row d c])⟩) := by
  cases h with
  | skipped hs => exact Or.inl ⟨hs, rfl, rfl⟩
  | inserted c d e13 e5 okc hs h13 h5 =>
    refine Or.inr ⟨hs, c, d, e13, e5, okc, h13, h5, rfl, ?_⟩
    simp [Store.exec, hp]

theorem RowsRun.rolledBack {k : Nat} {rows : List Row} {st st1 : Store} {evs : List Issued}
    {r : Res Unit} (h : RowsRun k rows st evs r st1) :
    ∀ p, st.pending = some p → r = .ok () → (∃ e ∈ evs, e.ev.rowCallFailed = true) →
      st1 = ⟨st.committed, none⟩ := by
  induction h with
  | commitOk k st =>
    intro p _ _ hf
    obtain ⟨e, he, hfe⟩ := hf
    simp only [List.mem_singleton] at he
    subst he
    simp [Event.rowCallFailed] at hfe
  | commitFailed k st => intro p _ hr; cases hr
  | next k row rest st st1 st2 sh sh1 evs evs2 r hrow _ ih =>
    intro p hp hr hf
    obtain ⟨e, he, hfe⟩ := hf
    have he2 : e ∈ evs2 := by
      rcases List.mem_append.1 he with h1 | h2
      · have := hrow.ok_noFailure e.ev (mem_tagged h1).2
        rw [this] at hfe; cases hfe
      · exact h2
    rcases hrow.ok_store p hp with ⟨_, hst, _⟩ | ⟨_, c, d, e13, e5, okc, _, _, _, hst⟩
    · subst hst
      exact ih p hp hr ⟨e, he2, hfe⟩
    · have := ih (p ++ [insertParams row d c]) (by rw [hst]) hr ⟨e, he2, hfe⟩
      rw [this, hst]
  | rollbackOk k row rest st st1 sh sh1 evs msg hrow =>
    intro p _ _ _
    rw [hrow.threw_failure.1]
    rfl
  | rollbackFailed k row rest st st1 sh sh1 evs msg hrow => intro p _ hr; cases hr

theorem jsTrim_eq_empty_iff (s : String) :
    jsTrim s = "" ↔ ∀ ch ∈ s.data, isTrimChar ch = true := by
  have h0 : ∀ l : List Char, (String.mk l = "") ↔ l = [] := by
    intro l
    constructor
    · intro h; exact congrArg String.data h
    · intro h; rw [h]
  unfold jsTrim
  rw [h0, List.reverse_eq_nil_iff, List.dropWhile_eq_nil_iff]
  constructor
  · intro h
    have hd : s.data.dropWhile isTrimChar = [] := by
      cases hl : s.data.dropWhile isTrimChar with
      | nil => rfl
      | cons a l =>
        have h1 : isTrimChar a = true := h a (by rw [hl]; simp)
        have h2 := List.head_dropWhile_not isTrimChar s.data (by rw [hl]; simp)
        simp only [hl, List.head_cons] at h2
        rw [h1] at h2
        simp at h2
    exact List.dropWhile_eq_nil_iff.1 hd
  · intro h
    rw [List.dropWhile_eq_nil_iff.2 h]
    simp

/-- A row passes the guard of line 90 exactly when its first cell exists and
holds at least one character that `trim` does not strip. -/
theorem skipRow_eq_false_iff (row : Row) :
    skipRow row = false ↔
      ∃ s rest, row = s :: rest ∧ ∃ ch ∈ s.data, isTrimChar ch = false := by
  cases row with
  | nil => simp [skipRow, cell, JSVal.truthy]
  | cons s rest =>
    have ht := jsTrim_eq_empty_iff s
    have hne : (s = "") → jsTrim s = "" := by
      intro h; subst h; rfl
    simp only [skipRow, cell, List.get?_cons_zero, JSVal.truthy, JSVal.typeof,
      JSVal.trimIsEmpty, bne_self_eq_false, Bool.or_false, Bool.or_eq_false_iff,
      Bool.not_eq_false', bne_iff_ne, ne_eq, beq_eq_false_iff_ne, List.cons.injEq,
      exists_and_left, exists_eq', and_true, exists_eq_left']
    constructor
    · rintro ⟨_, h2⟩
      refine ⟨s, rest, ⟨rfl, rfl⟩, ?_⟩
      by_contra hcon
      apply h2
      apply ht.2
      intro ch hch
      by_contra hc
      exact hcon ⟨ch, hch, by simpa using hc⟩
    · rintro ⟨s1, rest1, ⟨rfl, rfl⟩, ch, hch, hc⟩
      have h2 : ¬ jsTrim s = "" := by
        intro h
        have := ht.1 h ch hch
        rw [this] at hc
        cases hc
      exact ⟨fun h => h2 (hne h), h2⟩

theorem resolveAttachment_sim (env1 env2 : Env) (hdl : env1.download = env2.download)
    (k1 k2 : Nat) (url : JSVal) (w1 w2 : World) (hlen : w1.trace.length = w2.trace.length) :
    ∃ res evs,
      resolveAttachment env1 (some k1) url w1 =
        (res, ⟨w1.sheet, w1.store, w1.trace ++ tagged k1 evs, w1.log⟩) ∧
      resolveAttachment env2 (some k2) url w2 =
        (res, ⟨w2.sheet, w2.store, w2.trace ++ tagged k2 evs, w2.log⟩) := by
  unfold resolveAttachment
  by_cases hu : url.truthy = true
  · cases hd : env2.download w2.trace.length url with
    | none =>
      exact ⟨.threw "download", [.download url none],
        by simp [hu, downloadFile, World.emit, World.time, hdl, hlen, hd, tagged],
        by simp [hu, downloadFile, World.emit, World.time, hd, tagged]⟩
    | some bytes =>
      exact ⟨.ok (.buffer bytes), [.download url (some bytes)],
        by simp [hu, downloadFile, World.emit, World.time, hdl, hlen, hd, tagged],
        by simp [hu, downloadFile, World.emit, World.time, hd, tagged]⟩
  · have hf : url.truthy = false := by simpa using hu
    exact ⟨.ok .null, [], by simp [hf, tagged], by simp [hf, tagged]⟩

theorem queryAsync_sim (env1 env2 : Env) (hq : env1.queryOk = env2.queryOk)
    (k1 k2 : Option Nat) (stmt : Stmt) (w1 w2 : World)
    (hlen : w1.trace.length = w2.trace.length) :
    (queryAsync env1 k1 stmt w1 =
        (.ok (), ⟨w1.sheet, w1.store.exec stmt, w1.trace ++ [⟨k1, .query stmt true⟩], w1.log⟩) ∧
      queryAsync env2 k2 stmt w2 =
        (.ok (), ⟨w2.sheet, w2.store.exec stmt, w2.trace ++ [⟨k2, .query stmt true⟩], w2.log⟩)) ∨
    (queryAsync env1 k1 stmt w1 =
        (.threw "query", ⟨w1.sheet, w1.store, w1.trace ++ [⟨k1, .query stmt false⟩], w1.log⟩) ∧
      queryAsync env2 k2 stmt w2 =
        (.threw "query", ⟨w2.sheet, w2.store, w2.trace ++ [⟨k2, .query stmt false⟩], w2.log⟩)) := by
  unfold queryAsync
  cases hd : env2.queryOk w2.trace.length stmt with
  | true =>
    left
    exact ⟨by simp [World.emit, World.time, hq, hlen, hd], by simp [World.emit, World.time, hd]⟩
  | false =>
    right
    exact ⟨by simp [World.emit, World.time, hq, hlen, hd], by simp [World.emit, World.time, hd]⟩

theorem Agree.length {β : Type} {g : Event → β} {w1 w2 : World} (h : Agree g w1 w2) :
    w1.trace.length = w2.trace.length := by
  simpa using congrArg List.length h.2

theorem map_tagged {β : Type} (g : Event → β) (k : Nat) (evs : List Event) :
    (tagged k evs).map (fun e => g e.ev) = evs.map g := by
  simp [tagged, Function.comp_def]

theorem length_tagged (k : Nat) (evs : List Event) : (tagged k evs).length = evs.length := by
  simp [tagged]

theorem tryRow_sim {β : Type} (g : Event → β) (env1 env2 : Env)
    (hdl : env1.download = env2.download) (hq : env1.queryOk = env2.queryOk)
    (hg : ∀ rg t, g (.clear rg (env1.clearOk t)) = g (.clear rg (env2.clearOk t)))
    (k1 k2 : Nat) (row : Row) (w1 w2 : World) (h : Agree g w1 w2) :
    (tryRow env1 k1 row w1).1 = (tryRow env2 k2 row w2).1 ∧
    Agree g (tryRow env1 k1 row w1).2 (tryRow env2 k2 row w2).2 ∧
    ((∀ t, env1.clearOk t = env2.clearOk t) → w1.sheet = w2.sheet →
      (tryRow env1 k1 row w1).2.sheet = (tryRow env2 k2 row w2).2.sheet) := by
  have hlen := h.length
  obtain ⟨hst, htr⟩ := h
  unfold tryRow
  by_cases hs : skipRow row = true
  · simp only [hs, if_true, World.say]
    exact ⟨trivial, ⟨hst, htr⟩, fun _ h => h⟩
  · have hs2 : skipRow row = false := by simpa using hs
    simp only [hs2, Bool.false_eq_true, if_false]
    obtain ⟨r13, e13, ha, hb⟩ := resolveAttachment_sim env1 env2 hdl k1 k2 (cell row 13) w1 w2 hlen
    rw [ha, hb]
    cases r13 with
    | threw msg =>
      exact ⟨rfl, ⟨hst, by simp [map_tagged, htr]⟩, fun _ h => h⟩
    | ok c =>
      simp only
      obtain ⟨r5, e5, ha5, hb5⟩ := resolveAttachment_sim env1 env2 hdl k1 k2 (cell row 5)
        ⟨w1.sheet, w1.store, w1.trace ++ tagged k1 e13, w1.log⟩
        ⟨w2.sheet, w2.store, w2.trace ++ tagged k2 e13, w2.log⟩ (by simp [length_tagged, hlen])
      rw [ha5, hb5]
      cases r5 with
      | threw msg =>
        exact ⟨rfl, ⟨hst, by simp [map_tagged, htr]⟩, fun _ h => h⟩
      | ok d =>
        simp only
        rcases queryAsync_sim env1 env2 hq (some k1) (some k2) (.insert (insertParams row d c))
          ⟨w1.sheet, w1.store, w1.trace ++ tagged k1 e13 ++ tagged k1 e5, w1.log⟩
          ⟨w2.sheet, w2.store, w2.trace ++ tagged k2 e13 ++ tagged k2 e5, w2.log⟩
          (by simp [length_tagged, hlen]) with ⟨hqa, hqb⟩ | ⟨hqa, hqb⟩
        · rw [hqa, hqb]
          simp only [World.say]
          obtain ⟨lg1, hd1⟩ := deleteRowFromSpreadsheet_eq env1 (some k1)
            ⟨w1.sheet, w1.store.exec (.insert (insertParams row d c)),
              w1.trace ++ tagged k1 e13 ++ tagged k1 e5 ++
                [⟨some k1, .query (.insert (insertParams row d c)) true⟩],
              w1.log ++ ["Datos insertados en la base de datos:"]⟩
          obtain ⟨lg2, hd2⟩ := deleteRowFromSpreadsheet_eq env2 (some k2)
            ⟨w2.sheet, w2.store.exec (.insert (insertParams row d c)),
              w2.trace ++ tagged k2 e13 ++ tagged k2 e5 ++
                [⟨some k2, .query (.insert (insertParams row d c)) true⟩],
              w2.log ++ ["Datos insertados en la base de datos:"]⟩
          rw [hd1, hd2]
          refine ⟨rfl, ⟨by simp [hst], ?_⟩, ?_⟩
          · simp [map_tagged, length_tagged, htr, hlen, hg]
          · intro hc hsh
            simp [length_tagged, hlen, hc, hsh]
        · rw [hqa, hqb]
          exact ⟨rfl, ⟨hst, by simp [map_tagged, htr]⟩, fun _ h => h⟩

theorem tryRow_skip (env : Env) (k : Nat) (row : Row) (w : World) (h : skipRow row = true) :
    tryRow env k row w =
      (.ok (), (w.say "Fila vacia o correo no válido:").say "Correo:") := by
  simp [tryRow, h]

theorem insertRows_sim {β : Type} (g : Event → β) (env1 env2 : Env)
    (hdl : env1.download = env2.download) (hq : env1.queryOk = env2.queryOk)
    (hg : ∀ rg t, g (.clear rg (env1.clearOk t)) = g (.clear rg (env2.clearOk t)))
    {rows1 rows2 : List Row} (hrel : SkipsOnly rows1 rows2) :
    ∀ (k1 k2 : Nat) (w1 w2 : World), Agree g w1 w2 →
      (insertRows env1 k1 rows1 w1).1 = (insertRows env2 k2 rows2 w2).1 ∧
      Agree g (insertRows env1 k1 rows1 w1).2 (insertRows env2 k2 rows2 w2).2 ∧
      ((∀ t, env1.clearOk t = env2.clearOk t) → w1.sheet = w2.sheet →
        (insertRows env1 k1 rows1 w1).2.sheet = (insertRows env2 k2 rows2 w2).2.sheet) := by
  induction hrel with
  | nil =>
    intro k1 k2 w1 w2 h
    unfold insertRows
    rcases queryAsync_sim env1 env2 hq none none .commit w1 w2 h.length with ⟨ha, hb⟩ | ⟨ha, hb⟩
    · rw [ha, hb]
      exact ⟨rfl, ⟨by simp [h.1], by simp [h.2]⟩, fun _ hs => hs⟩
    · rw [ha, hb]
      exact ⟨rfl, ⟨h.1, by simp [h.2]⟩, fun _ hs => hs⟩
  | keep row l1 l2 _ ih =>
    intro k1 k2 w1 w2 h
    obtain ⟨hr, hag, hsh⟩ := tryRow_sim g env1 env2 hdl hq hg k1 k2 row w1 w2 h
    unfold insertRows
    rcases h1 : tryRow env1 k1 row w1 with ⟨r1, v1⟩
    rcases h2 : tryRow env2 k2 row w2 with ⟨r2, v2⟩
    rw [h1, h2] at hr hag hsh
    simp only at hr hag hsh
    subst hr
    cases r1 with
    | ok u =>
      simp only
      obtain ⟨hr1, hag1, hsh1⟩ := ih (k1 + 1) (k2 + 1) v1 v2 hag
      exact ⟨hr1, hag1, fun hc hs => hsh1 hc (hsh hc hs)⟩
    | threw msg =>
      simp only
      have hag2 : Agree g (v1.say "Error al insertar datos en la base de datos:")
          (v2.say "Error al insertar datos en la base de datos:") := hag
      rcases queryAsync_sim env1 env2 hq none none .rollback _ _ hag2.length
        with ⟨ha, hb⟩ | ⟨ha, hb⟩
      · rw [ha, hb]
        exact ⟨rfl, ⟨by simp [hag2.1], by simp [hag2.2]⟩,
          fun hc hs => by simpa [World.say] using hsh hc hs⟩
      · rw [ha, hb]
        exact ⟨rfl, ⟨hag2.1, by simp [hag2.2]⟩,
          fun hc hs => by simpa [World.say] using hsh hc hs⟩
  | drop row l1 l2 hskip _ ih =>
    intro k1 k2 w1 w2 h
    have hag : Agree g ((w1.say "Fila vacia o correo no válido:").say "Correo:") w2 := h
    obtain ⟨hr1, hag1, hsh1⟩ := ih (k1 + 1) k2 _ w2 hag
    rw [insertRows, tryRow_skip env1 k1 row w1 hskip]
    exact ⟨hr1, hag1, fun hc hs => hsh1 hc hs⟩

theorem insertIntoDatabase_sim {β : Type} (g : Event → β) (env1 env2 : Env)
    (hdl : env1.download = env2.download) (hq : env1.queryOk = env2.queryOk)
    (hg : ∀ rg t, g (.clear rg (env1.clearOk t)) = g (.clear rg (env2.clearOk t)))
    {data1 data2 : List Row} (hrel : SkipsOnly data1 data2) (w1 w2 : World)
    (h : Agree g w1 w2) :
    (insertIntoDatabase env1 data1 w1).1 = (insertIntoDatabase env2 data2 w2).1 ∧
    Agree g (insertIntoDatabase env1 data1 w1).2 (insertIntoDatabase env2 data2 w2).2 ∧
    ((∀ t, env1.clearOk t = env2.clearOk t) → w1.sheet = w2.sheet →
      (insertIntoDatabase env1 data1 w1).2.sheet =
        (insertIntoDatabase env2 data2 w2).2.sheet) := by
  unfold insertIntoDatabase
  rcases queryAsync_sim env1 env2 hq none none .startTransaction w1 w2 h.length
    with ⟨ha, hb⟩ | ⟨ha, hb⟩
  · rw [ha, hb]
    exact insertRows_sim g env1 env2 hdl hq hg hrel 0 0 _ _ ⟨by simp [h.1], by simp [h.2]⟩
  · rw [ha, hb]
    exact ⟨rfl, ⟨h.1, by simp [h.2]⟩, fun _ hs => hs⟩

theorem SkipsOnly.refl (rows : List Row) : SkipsOnly rows rows := by
  induction rows with
  | nil => exact SkipsOnly.nil
  | cons row rest ih => exact SkipsOnly.keep row rest rest ih

theorem SkipsOnly.remove (pre post : List Row) (bad : Row) (h : skipRow bad = true) :
    SkipsOnly (pre ++ bad :: post) (pre ++ post) := by
  induction pre with
  | nil => exact SkipsOnly.drop bad post post h (SkipsOnly.refl post)
  | cons row rest ih => exact SkipsOnly.keep row _ _ ih

theorem since_map_ev {β : Type} (g : Event → β) {w v1 v2 : World}
    (h : v1.trace.map (fun e => g e.ev) = v2.trace.map (fun e => g e.ev)) :
    (w.since v1).map (fun e => g e.ev) = (w.since v2).map (fun e => g e.ev) := by
  simp only [World.since, List.map_drop, h]

theorem RowRun.events_not_skipped {row : Row} {st st1 : Store} {sh sh1 : Option (List Row)}
    {evs : List Event} {r : Res Unit} (h : RowRun row st sh evs r st1 sh1) (e : Event)
    (he : e ∈ evs) : skipRow row = false := by
  cases h with
  | skipped _ => simp at he
  | cartaFailed hs _ => exact hs
  | descargaFailed c e13 hs _ _ => exact hs
  | insertFailed c d e13 e5 hs _ _ => exact hs
  | inserted c d e13 e5 okc hs _ _ => exact hs

theorem RowsRun.tagged_rows {k : Nat} {rows : List Row} {st st1 : Store} {evs : List Issued}
    {r : Res Unit} (h : RowsRun k rows st evs r st1) :
    ∀ e ∈ evs, ∀ j, e.row = some j →
      k ≤ j ∧ ∃ row, rows.get? (j - k) = some row ∧ skipRow row = false := by
  have key : ∀ (k : Nat) (row : Row) (rest : List Row) (st st1 : Store)
      (sh sh1 : Option (List Row)) (evs : List Event) (r : Res Unit),
      RowRun row st sh evs r st1 sh1 → ∀ e ∈ tagged k evs, ∀ j, e.row = some j →
        k ≤ j ∧ ∃ row', (row :: rest).get? (j - k) = some row' ∧ skipRow row' = false := by
    intro k row rest st st1 sh sh1 evs r hrow e he j hj
    obtain ⟨h1, h2⟩ := mem_tagged he
    rw [h1] at hj
    cases hj
    exact ⟨le_refl _, row, by simp, hrow.events_not_skipped e.ev h2⟩
  induction h with
  | commitOk k st =>
    intro e he j hj
    simp only [List.mem_singleton] at he
    subst he; cases hj
  | commitFailed k st =>
    intro e he j hj
    simp only [List.mem_singleton] at he
    subst he; cases hj
  | next k row rest st st1 st2 sh sh1 evs evs2 r hrow _ ih =>
    intro e he j hj
    rcases List.mem_append.1 he with h1 | h2
    · exact key k row rest st st1 sh sh1 evs _ hrow e h1 j hj
    · obtain ⟨hle, row', hget, hsk⟩ := ih e h2 j hj
      refine ⟨by omega, row', ?_, hsk⟩
      have : j - k = (j - (k + 1)) + 1 := by omega
      rw [this, List.get?_cons_succ]
      exact hget
  | rollbackOk k row rest st st1 sh sh1 evs msg hrow =>
    intro e he j hj
    rcases List.mem_append.1 he with h1 | h2
    · exact key k row rest st st1 sh sh1 evs _ hrow e h1 j hj
    · simp only [List.mem_singleton] at h2
      subst h2; cases hj
  | rollbackFailed k row rest st st1 sh sh1 evs msg hrow =>
    intro e he j hj
    rcases List.mem_append.1 he with h1 | h2
    · exact key k row rest st st1 sh sh1 evs _ hrow e h1 j hj
    · simp only [List.mem_singleton] at h2
      subst h2; cases hj

theorem RowRun.threw_last {row : Row} {st st1 : Store} {sh sh1 : Option (List Row)}
    {evs : List Event} {msg : String} (h : RowRun row st sh evs (.threw msg) st1 sh1)
    (e : Event) (he : e ∈ evs) (hf : e.rowCallFailed = true) :
    ∃ before, evs = before ++ [e] := by
  cases h with
  | cartaFailed _ _ =>
    simp only [List.mem_singleton] at he
    subst he
    exact ⟨[], rfl⟩
  | descargaFailed c e13 _ h13 _ =>
    rcases List.mem_append.1 he with h1 | h2
    · rw [h13.noFailure e h1] at hf; cases hf
    · simp only [List.mem_singleton] at h2
      subst h2
      exact ⟨e13, rfl⟩
  | insertFailed c d e13 e5 _ h13 h5 =>
    rcases List.mem_append.1 he with h1 | h2
    · rcases List.mem_append.1 h1 with h3 | h4
      · rw [h13.noFailure e h3] at hf; cases hf
      · rw [h5.noFailure e h4] at hf; cases hf
    · simp only [List.mem_singleton] at h2
      subst h2
      exact ⟨e13 ++ e5, rfl⟩

theorem Resolved.only_downloads {url v : JSVal} {evs : List Event} (h : Resolved url v evs)
    (stmt : Stmt) (ok : Bool) : Event.query stmt ok ∉ evs := by
  cases h with
  | absent _ => simp
  | fetched bytes _ => simp

theorem RowRun.no_commit {row : Row} {st st1 : Store} {sh sh1 : Option (List Row)}
    {evs : List Event} {r : Res Unit} (h : RowRun row st sh evs r st1 sh1) (ok : Bool) :
    Event.query .commit ok ∉ evs := by
  intro hmem
  cases h with
  | skipped _ => simp at hmem
  | cartaFailed _ _ => simp at hmem
  | descargaFailed c e13 _ h13 _ =>
    simp only [List.mem_append, List.mem_singleton] at hmem
    rcases hmem with h | h
    · exact h13.only_downloads _ _ h
    · cases h
  | insertFailed c d e13 e5 _ h13 h5 =>
    simp only [List.mem_append, List.mem_singleton] at hmem
    rcases hmem with (h | h) | h
    · exact h13.only_downloads _ _ h
    · exact h5.only_downloads _ _ h
    · cases h
  | inserted c d e13 e5 okc _ h13 h5 =>
    simp only [List.mem_append, List.mem_cons, List.mem_singleton,
      List.not_mem_nil, or_false] at hmem
    rcases hmem with (h | h) | h | h
    · exact h13.only_downloads _ _ h
    · exact h5.only_downloads _ _ h
    · cases h
    · cases h

theorem RowsRun.stops_at_failure {k : Nat} {rows : List Row} {st st1 : Store}
    {evs : List Issued} {r : Res Unit} (h : RowsRun k rows st evs r st1) :
    ∀ e ∈ evs, e.ev.rowCallFailed = true → ∀ j, e.row = some j →
      (∃ before ok, evs = before ++ [e, ⟨none, .query .rollback ok⟩]) ∧
      (∀ e1 ∈ evs, ∀ i, e1.row = some i → i ≤ j) ∧
      (∀ e1 ∈ evs, ∀ ok, e1.ev ≠ .query .commit ok) := by
  have key : ∀ (k : Nat) (row : Row) (st st1 : Store) (sh sh1 : Option (List Row))
      (evs : List Event) (msg : String) (okr : Bool),
      RowRun row st sh evs (.threw msg) st1 sh1 →
      ∀ e ∈ tagged k evs ++ [(⟨none, .query .rollback okr⟩ : Issued)],
        e.ev.rowCallFailed = true → ∀ j, e.row = some j →
      (∃ before ok, tagged k evs ++ [(⟨none, .query .rollback okr⟩ : Issued)] =
          before ++ [e, ⟨none, .query .rollback ok⟩]) ∧
      (∀ e1 ∈ tagged k evs ++ [(⟨none, .query .rollback okr⟩ : Issued)],
        ∀ i, e1.row = some i → i ≤ j) ∧
      (∀ e1 ∈ tagged k evs ++ [(⟨none, .query .rollback okr⟩ : Issued)],
        ∀ ok, e1.ev ≠ .query .commit ok) := by
    intro k row st st1 sh sh1 evs msg okr hrow e he hf j hj
    have he1 : e ∈ tagged k evs := by
      rcases List.mem_append.1 he with h1 | h2
      · exact h1
      · simp only [List.mem_singleton] at h2
        subst h2; cases hj
    obtain ⟨hk, hev⟩ := mem_tagged he1
    rw [hk] at hj
    cases hj
    obtain ⟨before, hb⟩ := hrow.threw_last e.ev hev hf
    have hee : (⟨some k, e.ev⟩ : Issued) = e := by
      cases e with
      | mk rw ev => simp only at hk; subst hk; rfl
    refine ⟨⟨tagged k before, okr, ?_⟩, ?_, ?_⟩
    · rw [hb]
      simp [tagged, hee]
    · intro e1 he1 i hi
      rcases List.mem_append.1 he1 with h1 | h2
      · rw [(mem_tagged h1).1] at hi
        cases hi
        exact le_refl _
      · simp only [List.mem_singleton] at h2
        subst h2; cases hi
    · intro e1 he1 ok hc
      rcases List.mem_append.1 he1 with h1 | h2
      · have h3 := (mem_tagged h1).2
        rw [hc] at h3
        exact hrow.no_commit ok h3
      · simp only [List.mem_singleton] at h2
        subst h2
        simp at hc
  induction h with
  | commitOk k st =>
    intro e he hf j hj
    simp only [List.mem_singleton] at he
    subst he; cases hj
  | commitFailed k st =>
    intro e he hf j hj
    simp only [List.mem_singleton] at he
    subst he; cases hj
  | next k row rest st st1 st2 sh sh1 evs evs2 r hrow hrest ih =>
    intro e he hf j hj
    have he2 : e ∈ evs2 := by
      rcases List.mem_append.1 he with h1 | h2
      · rw [hrow.ok_noFailure e.ev (mem_tagged h1).2] at hf; cases hf
      · exact h2
    obtain ⟨⟨before, ok, hb⟩, htags, hcommit⟩ := ih e he2 hf j hj
    have hkj := (hrest.tagged_rows e he2 j hj).1
    refine ⟨⟨tagged k evs ++ before, ok, by rw [hb, List.append_assoc]⟩, ?_, ?_⟩
    · intro e1 he1 i hi
      rcases List.mem_append.1 he1 with h1 | h2
      · rw [(mem_tagged h1).1] at hi
        cases hi
        omega
      · exact htags e1 h2 i hi
    · intro e1 he1 ok1 hc
      rcases List.mem_append.1 he1 with h1 | h2
      · have h3 := (mem_tagged h1).2
        rw [hc] at h3
        exact hrow.no_commit ok1 h3
      · exact hcommit e1 h2 ok1 hc
  | rollbackOk k row rest st st1 sh sh1 evs msg hrow =>
    exact key k row st st1 sh sh1 evs msg true hrow
  | rollbackFailed k row rest st st1 sh sh1 evs msg hrow =>
    exact key k row st st1 sh sh1 evs msg false hrow

theorem filter_tagged_self (k : Nat) (evs : List Event) :
    (tagged k evs).filter (fun x => decide (x.row = some k)) = tagged k evs := by
  rw [List.filter_eq_self]
  intro a ha
  simp [(mem_tagged ha).1]

theorem filter_tagged_ne (k j : Nat) (hkj : k ≠ j) (evs : List Event) :
    (tagged k evs).filter (fun x => decide (x.row = some j)) = [] := by
  rw [List.filter_eq_nil_iff]
  intro a ha
  simp [(mem_tagged ha).1, hkj]

theorem RowsRun.row_events {k : Nat} {rows : List Row} {st st1 : Store} {evs : List Issued}
    {r : Res Unit} (h : RowsRun k rows st evs r st1) :
    ∀ e ∈ evs, ∀ j, e.row = some j →
      ∃ row stj shj evsj rj stj1 shj1, rows.get? (j - k) = some row ∧
        RowRun row stj shj evsj rj stj1 shj1 ∧
        evs.filter (fun x => decide (x.row = some j)) = tagged j evsj := by
  induction h with
  | commitOk k st =>
    intro e he j hj
    simp only [List.mem_singleton] at he
    subst he; cases hj
  | commitFailed k st =>
    intro e he j hj
    simp only [List.mem_singleton] at he
    subst he; cases hj
  | next k row rest st st1 st2 sh sh1 evs evs2 r hrow hrest ih =>
    intro e he j hj
    rcases List.mem_append.1 he with h1 | h2
    · rw [(mem_tagged h1).1] at hj
      cases hj
      refine ⟨row, st, sh, evs, _, st1, sh1, by simp, hrow, ?_⟩
      rw [List.filter_append, filter_tagged_self]
      have : evs2.filter (fun x => decide (x.row = some k)) = [] := by
        rw [List.filter_eq_nil_iff]
        intro a ha hka
        have := (hrest.tagged_rows a ha k (by simpa using hka)).1
        omega
      rw [this, List.append_nil]
    · obtain ⟨row', stj, shj, evsj, rj, stj1, shj1, hget, hrun, hfil⟩ := ih e h2 j hj
      have hkj := (hrest.tagged_rows e h2 j hj).1
      refine ⟨row', stj, shj, evsj, rj, stj1, shj1, ?_, hrun, ?_⟩
      · have : j - k = (j - (k + 1)) + 1 := by omega
        rw [this, List.get?_cons_succ]
        exact hget
      · rw [List.filter_append, filter_tagged_ne k j (by omega), List.nil_append, hfil]
  | rollbackOk k row rest st st1 sh sh1 evs msg hrow =>
    intro e he j hj
    rcases List.mem_append.1 he with h1 | h2
    · rw [(mem_tagged h1).1] at hj
      cases hj
      refine ⟨row, st, sh, evs, _, st1, sh1, by simp, hrow, ?_⟩
      rw [List.filter_append, filter_tagged_self]
      simp
    · simp only [List.mem_singleton] at h2
      subst h2; cases hj
  | rollbackFailed k row rest st st1 sh sh1 evs msg hrow =>
    intro e he j hj
    rcases List.mem_append.1 he with h1 | h2
    · rw [(mem_tagged h1).1] at hj
      cases hj
      refine ⟨row, st, sh, evs, _, st1, sh1, by simp, hrow, ?_⟩
      rw [List.filter_append, filter_tagged_self]
      simp
    · simp only [List.mem_singleton] at h2
      subst h2; cases hj

theorem Resolved.null_iff {url v : JSVal} {evs : List Event} (h : Resolved url v evs) :
    (v = .null ↔ url.truthy = false) ∧ (url.truthy = false → evs = []) := by
  cases h with
  | absent hu => simp [hu]
  | fetched bytes hu => simp [hu]

theorem cell_truthy_false_iff (row : Row) (i : Nat) :
    (cell row i).truthy = false ↔ cell row i = .undefined ∨ cell row i = .str "" := by
  unfold cell
  cases row.get? i with
  | none => simp [JSVal.truthy]
  | some s => simp [JSVal.truthy]

/-- The insert of a row, among the calls of that row: the two attachments are
resolved first, the insert follows, and at most the clear comes after it. -/
theorem RowRun.insert_shape {row : Row} {st st1 : Store} {sh sh1 : Option (List Row)}
    {evs : List Event} {r : Res Unit} (h : RowRun row st sh evs r st1 sh1)
    (params : List JSVal) (ok : Bool) (he : Event.query (.insert params) ok ∈ evs) :
    skipRow row = false ∧ ∃ c d e13 e5 after, Resolved (cell row 13) c e13 ∧
      Resolved (cell row 5) d e5 ∧ params = insertParams row d c ∧
      evs = e13 ++ e5 ++ .query (.insert params) ok :: after ∧
      (after = [] ∨ ∃ okc, after = [.clear "Hoja1!A2:P" okc]) := by
  cases h with
  | skipped _ => simp at he
  | cartaFailed _ _ => simp at he
  | descargaFailed c e13 _ h13 _ =>
    simp only [List.mem_append, List.mem_singleton] at he
    rcases he with h | h
    · exact absurd h (h13.only_downloads _ _)
    · cases h
  | insertFailed c d e13 e5 hs h13 h5 =>
    simp only [List.mem_append, List.mem_singleton] at he
    rcases he with (h | h) | h
    · exact absurd h (h13.only_downloads _ _)
    · exact absurd h (h5.only_downloads _ _)
    · cases h
      exact ⟨hs, c, d, e13, e5, [], h13, h5, rfl, rfl, Or.inl rfl⟩
  | inserted c d e13 e5 okc hs h13 h5 =>
    simp only [List.mem_append, List.mem_cons, List.mem_singleton, List.not_mem_nil,
      or_false] at he
    rcases he with (h | h) | h | h
    · exact absurd h (h13.only_downloads _ _)
    · exact absurd h (h5.only_downloads _ _)
    · cases h
      exact ⟨hs, c, d, e13, e5, [.clear "Hoja1!A2:P" okc], h13, h5, rfl, rfl,
        Or.inr ⟨okc, rfl⟩⟩
    · cases h

theorem validRows_cons_skip (k : Nat) (row : Row) (rest : List Row) (h : skipRow row = true) :
    validRows k (row :: rest) = validRows (k + 1) rest := by
  simp [validRows, List.enumFrom_cons, List.filter_cons, h]

theorem validRows_cons_keep (k : Nat) (row : Row) (rest : List Row) (h : skipRow row = false) :
    validRows k (row :: rest) = (k, row) :: validRows (k + 1) rest := by
  simp [validRows, List.enumFrom_cons, List.filter_cons, h]

theorem RowsRun.committedAll {k : Nat} {rows : List Row} {st st1 : Store} {evs : List Issued}
    {r : Res Unit} (h : RowsRun k rows st evs r st1) :
    ∀ p, st.pending = some p → (∀ e ∈ evs, e.ev.rowCallFailed = false) →
      (∀ e ∈ evs, e.ev.txnFailed = false) →
      r = .ok () ∧ evs.getLast? = some ⟨none, .query .commit true⟩ ∧
      ∃ records,
        List.Forall₂ (fun a record => k ≤ a.1 ∧ BuiltFrom evs a record)
          (validRows k rows) records ∧
        st1 = ⟨st.committed ++ p ++ records, none⟩ := by
  induction h with
  | commitOk k st =>
    intro p hp _ _
    refine ⟨rfl, rfl, [], ?_, ?_⟩
    · simp [validRows]
    · simp [Store.exec, hp]
  | commitFailed k st =>
    intro p _ _ ht
    have := ht ⟨none, .query .commit false⟩ (List.mem_singleton.2 rfl)
    simp [Event.txnFailed] at this
  | next k row rest st st1 st2 sh sh1 evs evs2 r hrow hrest ih =>
    intro p hp hf ht
    have hf2 : ∀ e ∈ evs2, e.ev.rowCallFailed = false :=
      fun e he => hf e (List.mem_append_right _ he)
    have ht2 : ∀ e ∈ evs2, e.ev.txnFailed = false :=
      fun e he => ht e (List.mem_append_right _ he)
    have hlift : ∀ (a : Nat × Row) (record : List JSVal),
        (k + 1 ≤ a.1 ∧ BuiltFrom evs2 a record) →
        (k ≤ a.1 ∧ BuiltFrom (tagged k evs ++ evs2) a record) := by
      rintro a record ⟨hle, c, d, e13, e5, okc, h13, h5, hrec, hfil⟩
      refine ⟨by omega, c, d, e13, e5, okc, h13, h5, hrec, ?_⟩
      rw [List.filter_append, filter_tagged_ne k a.1 (by omega), List.nil_append, hfil]
    rcases hrow.ok_store p hp with ⟨hs, hst, _⟩ | ⟨hs, c, d, e13, e5, okc, h13, h5, hevs, hst⟩
    · subst hst
      obtain ⟨hr, hl, records, hrec, hst2⟩ := ih p hp hf2 ht2
      refine ⟨hr, ?_, records, ?_, hst2⟩
      · rw [List.getLast?_append, hl]; rfl
      · rw [validRows_cons_skip k row rest hs]
        exact hrec.imp hlift
    · obtain ⟨hr, hl, records, hrec, hst2⟩ :=
        ih (p ++ [insertParams row d c]) (by rw [hst]) hf2 ht2
      refine ⟨hr, ?_, insertParams row d c :: records, ?_, ?_⟩
      · rw [List.getLast?_append, hl]; rfl
      · rw [validRows_cons_keep k row rest hs]
        refine List.Forall₂.cons ⟨le_refl _, c, d, e13, e5, okc, h13, h5, rfl, ?_⟩
          (hrec.imp hlift)
        have hnone : evs2.filter (fun x => decide (x.row = some k)) = [] := by
          rw [List.filter_eq_nil_iff]
          intro x hx hkx
          have := (hrest.tagged_rows x hx k (by simpa using hkx)).1
          omega
        rw [List.filter_append, filter_tagged_self, hnone, List.append_nil, hevs]
      · rw [hst2, hst]; simp
  | rollbackOk k row rest st st1 sh sh1 evs msg hrow =>
    intro p _ hf _
    obtain ⟨e, he, hfe⟩ := hrow.threw_failure.2
    have := hf ⟨some k, e⟩ (List.mem_append_left _ (List.mem_map.2 ⟨e, he, rfl⟩))
    simp only at this
    rw [this] at hfe; cases hfe
  | rollbackFailed k row rest st st1 sh sh1 evs msg hrow =>
    intro p _ hf _
    obtain ⟨e, he, hfe⟩ := hrow.threw_failure.2
    have := hf ⟨some k, e⟩ (List.mem_append_left _ (List.mem_map.2 ⟨e, he, rfl⟩))
    simp only at this
    rw [this] at hfe; cases hfe

theorem statements_append (a b : List Issued) :
    statements (a ++ b) = statements a ++ statements b := by
  simp [statements]

theorem Resolved.no_statement {url v : JSVal} {evs : List Event} (h : Resolved url v evs) :
    ∀ e ∈ evs, e.statement = none := by
  cases h with
  | absent _ => simp
  | fetched bytes _ => simp [Event.statement]

theorem RowRun.only_inserts {row : Row} {st st1 : Store} {sh sh1 : Option (List Row)}
    {evs : List Event} {r : Res Unit} (h : RowRun row st sh evs r st1 sh1) (k : Nat) :
    ∀ s ∈ statements (tagged k evs), ∃ params, s = .insert params := by
  have hmain : ∀ e ∈ evs, e.statement = none ∨ ∃ params, e.statement = some (.insert params) := by
    cases h with
    | skipped _ => simp
    | cartaFailed _ _ => simp [Event.statement]
    | descargaFailed c e13 _ h13 _ =>
      intro e he
      rcases List.mem_append.1 he with h1 | h2
      · exact Or.inl (h13.no_statement e h1)
      · simp only [List.mem_singleton] at h2
        subst h2
        exact Or.inl rfl
    | insertFailed c d e13 e5 _ h13 h5 =>
      intro e he
      rcases List.mem_append.1 he with h1 | h2
      · rcases List.mem_append.1 h1 with h3 | h4
        · exact Or.inl (h13.no_statement e h3)
        · exact Or.inl (h5.no_statement e h4)
      · simp only [List.mem_singleton] at h2
        subst h2
        exact Or.inr ⟨_, rfl⟩
    | inserted c d e13 e5 okc _ h13 h5 =>
      intro e he
      simp only [List.mem_append, List.mem_cons, List.mem_singleton, List.not_mem_nil,
        or_false] at he
      rcases he with (h1 | h1) | h1 | h1
      · exact Or.inl (h13.no_statement e h1)
      · exact Or.inl (h5.no_statement e h1)
      · subst h1
        exact Or.inr ⟨_, rfl⟩
      · subst h1
        exact Or.inl rfl
  intro s hs
  simp only [statements, List.mem_filterMap] at hs
  obtain ⟨e, he, hes⟩ := hs
  rcases hmain e.ev (mem_tagged he).2 with h1 | ⟨params, h1⟩
  · rw [h1] at hes; cases hes
  · rw [h1] at hes
    exact ⟨params, (Option.some.inj hes).symm⟩

theorem RowsRun.balanced {k : Nat} {rows : List Row} {st st1 : Store} {evs : List Issued}
    {r : Res Unit} (h : RowsRun k rows st evs r st1) :
    ∀ p, st.pending = some p → (∀ e ∈ evs, e.ev.txnFailed = false) →
      r = .ok () ∧ st1.pending = none ∧
      ∃ inserts fin, statements evs = inserts ++ [fin] ∧
        (∀ s ∈ inserts, ∃ params, s = .insert params) ∧ (fin = .commit ∨ fin = .rollback) := by
  induction h with
  | commitOk k st =>
    intro p _ _
    exact ⟨rfl, rfl, [], .commit, rfl, by simp, Or.inl rfl⟩
  | commitFailed k st =>
    intro p _ ht
    have := ht ⟨none, .query .commit false⟩ (List.mem_singleton.2 rfl)
    simp [Event.txnFailed] at this
  | next k row rest st st1 st2 sh sh1 evs evs2 r hrow _ ih =>
    intro p hp ht
    have ht2 : ∀ e ∈ evs2, e.ev.txnFailed = false :=
      fun e he => ht e (List.mem_append_right _ he)
    have hp1 : ∃ p1, st1.pending = some p1 := by
      rcases hrow.ok_store p hp with ⟨_, hst, _⟩ | ⟨_, c, d, e13, e5, okc, _, _, _, hst⟩
      · exact ⟨p, by rw [hst]; exact hp⟩
      · exact ⟨p ++ [insertParams row d c], by rw [hst]⟩
    obtain ⟨p1, hp1⟩ := hp1
    obtain ⟨hr, hpend, inserts, fin, hst, hins, hfin⟩ := ih p1 hp1 ht2
    refine ⟨hr, hpend, statements (tagged k evs) ++ inserts, fin, ?_, ?_, hfin⟩
    · rw [statements_append, hst, List.append_assoc]
    · intro s hs
      rcases List.mem_append.1 hs with h1 | h2
      · exact hrow.only_inserts k s h1
      · exact hins s h2
  | rollbackOk k row rest st st1 sh sh1 evs msg hrow =>
    intro p _ _
    refine ⟨rfl, rfl, statements (tagged k evs), .rollback, ?_, hrow.only_inserts k, Or.inr rfl⟩
    rw [statements_append]
    rfl
  | rollbackFailed k row rest st st1 sh sh1 evs msg hrow =>
    intro p _ ht
    have := ht ⟨none, .query .rollback false⟩
      (List.mem_append_right _ (List.mem_singleton.2 rfl))
    simp [Event.txnFailed] at this

/-! ## The polling loop -/

theorem fetchNewResponses_run (env : Env) (w : World) :
    (∃ msg, fetchNewResponses env w =
      (.threw msg, ⟨w.sheet, w.store, w.trace ++ [⟨none, .authorize false⟩], w.log⟩)) ∨
    (∃ msg, fetchNewResponses env w =
      (.threw msg, ⟨w.sheet, w.store,
        w.trace ++ [⟨none, .authorize true⟩, ⟨none, .valuesGet "Hoja1!B2:P" false⟩], w.log⟩)) ∨
    fetchNewResponses env w =
      (.ok (w.sheet.getD []), ⟨w.sheet, w.store,
        w.trace ++ [⟨none, .authorize true⟩, ⟨none, .valuesGet "Hoja1!B2:P" true⟩], w.log⟩) := by
  unfold fetchNewResponses authorize
  cases ha : env.authorizeOk w.time with
  | false =>
    left
    exact ⟨"Error al obtener nuevas respuestas: " ++ "authorize", by simp [World.emit]⟩
  | true =>
    right
    simp only [if_true, valuesGet, World.emit, World.time]
    cases hv : env.valuesGetOk (w.trace ++ [(⟨none, .authorize true⟩ : Issued)]).length with
    | false =>
      left
      exact ⟨"Error al obtener nuevas respuestas: " ++ "values.get", by simp⟩
    | true =>
      right
      simp

theorem sleep_run (ms : Nat) (w : World) :
    sleep ms w = (.ok (), ⟨w.sheet, w.store, w.trace ++ [⟨none, .sleep ms⟩], w.log⟩) := rfl

theorem loopBody_run (env : Env) (w : World) :
    (loopBody env w).1 = .ok () ∧
    (loopBody env w).2.trace = (pollOnce env w).2.trace ++ [⟨none, .sleep 60000⟩] ∧
    (loopBody env w).2.store = (pollOnce env w).2.store ∧
    (loopBody env w).2.sheet = (pollOnce env w).2.sheet := by
  unfold loopBody
  rcases hp : pollOnce env w with ⟨r, w1⟩
  cases r with
  | ok u => exact ⟨rfl, rfl, rfl, rfl⟩
  | threw msg => exact ⟨rfl, rfl, rfl, rfl⟩

theorem pollOnce_empty (env : Env) (w : World) (h : (fetchNewResponses env w).1 = .ok []) :
    (pollOnce env w).2.trace =
      w.trace ++ [⟨none, .authorize true⟩, ⟨none, .valuesGet "Hoja1!B2:P" true⟩] ∧
    (pollOnce env w).2.store = w.store ∧ (pollOnce env w).2.sheet = w.sheet ∧
    w.sheet.getD [] = [] := by
  unfold pollOnce
  rcases fetchNewResponses_run env w with ⟨msg, hf⟩ | ⟨msg, hf⟩ | hf
  · rw [hf] at h; cases h
  · rw [hf] at h; cases h
  · rw [hf] at h ⊢
    simp only [Res.ok.injEq] at h
    simp [h, World.say]

theorem pollOnce_no_values (env : Env) (w : World) (h : w.sheet = none) :
    (pollOnce env w).2.store = w.store ∧ (pollOnce env w).2.sheet = none := by
  unfold pollOnce
  rcases fetchNewResponses_run env w with ⟨msg, hf⟩ | ⟨msg, hf⟩ | hf
  · rw [hf]; exact ⟨rfl, h⟩
  · rw [hf]; exact ⟨rfl, h⟩
  · rw [hf]
    simp [h, World.say]

theorem processResponsesAtIntervals_no_values (env : Env) (n : Nat) :
    ∀ w : World, w.sheet = none →
      (processResponsesAtIntervals env n w).2.store = w.store := by
  induction n with
  | zero => intro w _; rfl
  | succ n ih =>
    intro w h
    obtain ⟨hr, _, hst, hsh⟩ := loopBody_run env w
    obtain ⟨hst2, hsh2⟩ := pollOnce_no_values env w h
    unfold processResponsesAtIntervals
    rcases hl : loopBody env w with ⟨r, w1⟩
    rw [hl] at hr hst hsh
    simp only at hr hst hsh
    subst hr
    simp only
    rw [ih w1 (by rw [hsh, hsh2]), hst, hst2]

/-! ## The claims -/

/-- C1 as stated fails when a transaction is still open at the call, a state
the loop reaches: in the first iteration the download of row 1 fails and the
`ROLLBACK` is refused, so the insert of row 0 stays pending (the clear failed
too, so the second iteration fetches the same two rows); in the second
iteration the download fails again, `ROLLBACK` succeeds and the function
returns, yet the record of row 0 is now committed, because `START
TRANSACTION` made the pending transaction durable. -/
theorem insertIntoDatabase_after_refused_rollback :
    (fetchNewResponses envRollbackRefusedOnce
      (loopBody envRollbackRefusedOnce (worldWith [rowPlain, rowWithFile])).2).1 =
      .ok [rowPlain, rowWithFile] ∧
    (secondCallWorld envRollbackRefusedOnce (worldWith [rowPlain, rowWithFile])).store =
      ⟨[], some [insertParams rowPlain .null .null]⟩ ∧
    (insertIntoDatabase envRollbackRefusedOnce [rowPlain, rowWithFile]
      (secondCallWorld envRollbackRefusedOnce (worldWith [rowPlain, rowWithFile]))).1 =
      .ok () ∧
    (⟨some 1, .download (.str "https://files.example/a.pdf") none⟩ : Issued) ∈
      (secondCallWorld envRollbackRefusedOnce (worldWith [rowPlain, rowWithFile])).since
        (insertIntoDatabase envRollbackRefusedOnce [rowPlain, rowWithFile]
          (secondCallWorld envRollbackRefusedOnce (worldWith [rowPlain, rowWithFile]))).2 ∧
    (insertIntoDatabase envRollbackRefusedOnce [rowPlain, rowWithFile]
      (secondCallWorld envRollbackRefusedOnce (worldWith [rowPlain, rowWithFile]))).2.store =
      ⟨[insertParams rowPlain .null .null], none⟩ := by
  decide

/-- C1 (amended). When some download or insert of the batch fails and
`insertIntoDatabase` returns, nothing this call inserted is durable: the
committed records are those committed before the call, followed by the
records of a transaction that was still open on the connection at the call,
and no transaction is open.  In particular, called with no transaction open,
the function leaves the store as it was before the call. -/
theorem insertIntoDatabase_all_or_nothing (env : Env) (data : List Row) (w : World)
    (hret : (insertIntoDatabase env data w).1 = .ok ())
    (hfail : ∃ e ∈ w.since (insertIntoDatabase env data w).2, e.ev.rowCallFailed = true) :
    (insertIntoDatabase env data w).2.store =
      ⟨w.store.committed ++ w.store.pending.getD [], none⟩ ∧
    (w.store.pending = none → (insertIntoDatabase env data w).2.store = w.store) := by
  have h := insertIntoDatabase_run env data w
  generalize w.since (insertIntoDatabase env data w).2 = evs at h hfail
  generalize (insertIntoDatabase env data w).1 = r at h hret
  generalize (insertIntoDatabase env data w).2.store = st1 at h
  cases h with
  | startFailed => cases hret
  | started evs2 _ _ hrun =>
    obtain ⟨e, he, hfe⟩ := hfail
    have he2 : e ∈ evs2 := by
      rcases List.mem_cons.1 he with h1 | h2
      · subst h1; simp [Event.rowCallFailed] at hfe
      · exact h2
    have := hrun.rolledBack [] (by simp [Store.exec]) hret ⟨e, he2, hfe⟩
    rw [this]
    refine ⟨by simp [Store.exec], ?_⟩
    intro hclean
    cases hw : w.store with
    | mk c p =>
      rw [hw] at hclean
      simp only at hclean
      subst hclean
      simp [Store.exec]

/-- Witness of C1 (amended): a batch whose second row has a download that
fails, called with no transaction open. -/
theorem insertIntoDatabase_all_or_nothing_witness :
    (insertIntoDatabase envDownloadFails [rowPlain, rowWithFile]
      (worldWith [rowPlain, rowWithFile])).1 = .ok () ∧
    (insertIntoDatabase envDownloadFails [rowPlain, rowWithFile]
      (worldWith [rowPlain, rowWithFile])).2.store =
      (worldWith [rowPlain, rowWithFile]).store :=
  ⟨by decide,
    (insertIntoDatabase_all_or_nothing envDownloadFails [rowPlain, rowWithFile]
      (worldWith [rowPlain, rowWithFile]) (by decide)
      ⟨⟨some 1, .download (.str "https://files.example/a.pdf") none⟩, by decide, rfl⟩).2 rfl⟩

/-- C2, evaluated on a batch of a row without attachment followed by a row
whose download fails: the function returns, the transaction is rolled back and
nothing is committed, but a clear of the whole data range was issued, and
succeeded, while the first row was processed, so the sheet is empty
afterwards. -/
theorem insertIntoDatabase_clears_before_rollback :
    (insertIntoDatabase envDownloadFails [rowPlain, rowWithFile]
      (worldWith [rowPlain, rowWithFile])).1 = .ok () ∧
    (insertIntoDatabase envDownloadFails [rowPlain, rowWithFile]
      (worldWith [rowPlain, rowWithFile])).2.store = ⟨[], none⟩ ∧
    (worldWith [rowPlain, rowWithFile]).since
      (insertIntoDatabase envDownloadFails [rowPlain, rowWithFile]
        (worldWith [rowPlain, rowWithFile])).2 =
      [⟨none, .query .startTransaction true⟩,
       ⟨some 0, .query (.insert (insertParams rowPlain .null .null)) true⟩,
       ⟨some 0, .clear "Hoja1!A2:P" true⟩,
       ⟨some 1, .download (.str "https://files.example/a.pdf") none⟩,
       ⟨none, .query .rollback true⟩] ∧
    (worldWith [rowPlain, rowWithFile]).sheet = some [rowPlain, rowWithFile] ∧
    (insertIntoDatabase envDownloadFails [rowPlain, rowWithFile]
      (worldWith [rowPlain, rowWithFile])).2.sheet = none := by
  decide

/-- C3 as stated fails in three ways, each with no download and no insert
failing.  When `START TRANSACTION` is refused the function throws, sends no
`COMMIT` and commits nothing.  When `COMMIT` is refused the function throws
and the two records stay uncommitted.  When a transaction is still open at
the call, a state the loop reaches after a refused `COMMIT`, the call commits
four records for two valid rows: the two left pending and the two it
inserts. -/
theorem insertIntoDatabase_failure_free_not_exact :
    ((∀ e ∈ (worldWith [rowPlain]).since
        (insertIntoDatabase envDatabaseDown [rowPlain] (worldWith [rowPlain])).2,
      e.ev.rowCallFailed = false) ∧
     (insertIntoDatabase envDatabaseDown [rowPlain] (worldWith [rowPlain])).1 =
       .threw "query" ∧
     (worldWith [rowPlain]).since
         (insertIntoDatabase envDatabaseDown [rowPlain] (worldWith [rowPlain])).2 =
       [⟨none, .query .startTransaction false⟩] ∧
     (insertIntoDatabase envDatabaseDown [rowPlain] (worldWith [rowPlain])).2.store.committed
       = [] ∧
     validRows 0 [rowPlain] = [(0, rowPlain)]) ∧
    ((∀ e ∈ (worldWith [rowPlain, rowWithFile]).since
        (insertIntoDatabase envCommitRefused [rowPlain, rowWithFile]
          (worldWith [rowPlain, rowWithFile])).2,
      e.ev.rowCallFailed = false) ∧
     (insertIntoDatabase envCommitRefused [rowPlain, rowWithFile]
       (worldWith [rowPlain, rowWithFile])).1 = .threw "query" ∧
     (insertIntoDatabase envCommitRefused [rowPlain, rowWithFile]
       (worldWith [rowPlain, rowWithFile])).2.store.committed = []) ∧
    ((fetchNewResponses envCommitRefusedOnce
        (loopBody envCommitRefusedOnce (worldWith [rowPlain, rowWithFile])).2).1 =
        .ok [rowPlain, rowWithFile] ∧
     (secondCallWorld envCommitRefusedOnce (worldWith [rowPlain, rowWithFile])).store =
       ⟨[], some [insertParams rowPlain .null .null,
         insertParams rowWithFile (.buffer [80, 68, 70]) .null]⟩ ∧
     (∀ e ∈ (secondCallWorld envCommitRefusedOnce (worldWith [rowPlain, rowWithFile])).since
        (insertIntoDatabase envCommitRefusedOnce [rowPlain, rowWithFile]
          (secondCallWorld envCommitRefusedOnce (worldWith [rowPlain, rowWithFile]))).2,
      e.ev.rowCallFailed = false) ∧
     (insertIntoDatabase envCommitRefusedOnce [rowPlain, rowWithFile]
       (secondCallWorld envCommitRefusedOnce (worldWith [rowPlain, rowWithFile]))).1 =
       .ok () ∧
     (insertIntoDatabase envCommitRefusedOnce [rowPlain, rowWithFile]
       (secondCallWorld envCommitRefusedOnce
         (worldWith [rowPlain, rowWithFile]))).2.store.committed =
       [insertParams rowPlain .null .null,
        insertParams rowWithFile (.buffer [80, 68, 70]) .null,
        insertParams rowPlain .null .null,
        insertParams rowWithFile (.buffer [80, 68, 70]) .null]) := by
  decide

/-- C3 (amended). When no download, no insert and none of `START TRANSACTION`
and `COMMIT` fails, `insertIntoDatabase` returns after a successful `COMMIT`,
and the committed records are those committed before the call, followed by
the records of a transaction that was still open on the connection at the
call (none when no transaction was open), followed by exactly one record per
row that passes validation, in the order of the rows.  The record of a row is
built from its cells and from the bytes that the downloads issued for that row
in this run answered.  A row passes validation exactly when its first cell is
a string with a character that `trim` keeps. -/
theorem insertIntoDatabase_commits_valid_rows (env : Env) (data : List Row) (w : World)
    (hrows : ∀ e ∈ w.since (insertIntoDatabase env data w).2, e.ev.rowCallFailed = false)
    (htxn : ∀ e ∈ w.since (insertIntoDatabase env data w).2, e.ev.txnFailed = false) :
    (insertIntoDatabase env data w).1 = .ok () ∧
    (w.since (insertIntoDatabase env data w).2).getLast? =
      some ⟨none, .query .commit true⟩ ∧
    (∃ records,
      List.Forall₂ (BuiltFrom (w.since (insertIntoDatabase env data w).2))
        (validRows 0 data) records ∧
      (insertIntoDatabase env data w).2.store =
        ⟨w.store.committed ++ w.store.pending.getD [] ++ records, none⟩) ∧
    (∀ row : Row, skipRow row = false ↔
      ∃ s rest, row = s :: rest ∧ ∃ ch ∈ s.data, isTrimChar ch = false) := by
  have h := insertIntoDatabase_run env data w
  generalize w.since (insertIntoDatabase env data w).2 = evs at h hrows htxn
  generalize (insertIntoDatabase env data w).1 = r at h
  generalize (insertIntoDatabase env data w).2.store = st1 at h
  cases h with
  | startFailed =>
    have := htxn ⟨none, .query .startTransaction false⟩ (List.mem_singleton.2 rfl)
    simp [Event.txnFailed] at this
  | started evs2 _ _ hrun =>
    obtain ⟨hr, hl, records, hrec, hst⟩ := hrun.committedAll [] (by simp [Store.exec])
      (fun e he => hrows e (List.mem_cons_of_mem _ he))
      (fun e he => htxn e (List.mem_cons_of_mem _ he))
    refine ⟨hr, ?_, ⟨records, ?_, ?_⟩, skipRow_eq_false_iff⟩
    · have := @List.getLast?_append _ [(⟨none, .query .startTransaction true⟩ : Issued)] evs2
      simp only [List.singleton_append] at this
      rw [this, hl]; rfl
    · refine hrec.imp ?_
      rintro a record ⟨_, c, d, e13, e5, okc, h13, h5, hp, hfil⟩
      refine ⟨c, d, e13, e5, okc, h13, h5, hp, ?_⟩
      rw [List.filter_cons_of_neg (by simp), hfil]
    · rw [hst]
      simp [Store.exec]

/-- Witness of C3 (amended): two valid rows and a row with an empty email,
with no transaction open at the call, commit exactly two records. -/
theorem insertIntoDatabase_commits_valid_rows_witness :
    ((insertIntoDatabase envAllOk [rowPlain, rowNoEmail, rowWithFile]
        (worldWith [rowPlain, rowNoEmail, rowWithFile])).1 = .ok () ∧
      ((worldWith [rowPlain, rowNoEmail, rowWithFile]).since
        (insertIntoDatabase envAllOk [rowPlain, rowNoEmail, rowWithFile]
          (worldWith [rowPlain, rowNoEmail, rowWithFile])).2).getLast? =
        some ⟨none, .query .commit true⟩ ∧
      (∃ records,
        List.Forall₂ (BuiltFrom ((worldWith [rowPlain, rowNoEmail, rowWithFile]).since
            (insertIntoDatabase envAllOk [rowPlain, rowNoEmail, rowWithFile]
              (worldWith [rowPlain, rowNoEmail, rowWithFile])).2))
          (validRows 0 [rowPlain, rowNoEmail, rowWithFile]) records ∧
        (insertIntoDatabase envAllOk [rowPlain, rowNoEmail, rowWithFile]
          (worldWith [rowPlain, rowNoEmail, rowWithFile])).2.store =
          ⟨(worldWith [rowPlain, rowNoEmail, rowWithFile]).store.committed ++
            (worldWith [rowPlain, rowNoEmail, rowWithFile]).store.pending.getD [] ++ records,
            none⟩) ∧
      (∀ row : Row, skipRow row = false ↔
        ∃ s rest, row = s :: rest ∧ ∃ ch ∈ s.data, isTrimChar ch = false)) ∧
    validRows 0 [rowPlain, rowNoEmail, rowWithFile] = [(0, rowPlain), (2, rowWithFile)] ∧
    (insertIntoDatabase envAllOk [rowPlain, rowNoEmail, rowWithFile]
      (worldWith [rowPlain, rowNoEmail, rowWithFile])).2.store.committed =
      [insertParams rowPlain .null .null,
       insertParams rowWithFile (.buffer [80, 68, 70]) .null] :=
  ⟨insertIntoDatabase_commits_valid_rows envAllOk [rowPlain, rowNoEmail, rowWithFile]
      (worldWith [rowPlain, rowNoEmail, rowWithFile]) (by decide) (by decide),
    by decide, by decide⟩

/-- C4. A row whose first cell is absent, not a string or the empty string
causes no call at all, and the batch runs as it does without that row: the
same result, the same sequence of downloads, statements and clears with the
same outcomes, and the same store and sheet at the end. -/
theorem insertIntoDatabase_invalid_row_has_no_effect (env : Env) (pre post : List Row)
    (bad : Row) (w : World)
    (hbad : (cell bad 0).typeof ≠ "string" ∨ cell bad 0 = .str "") :
    (∀ e ∈ w.since (insertIntoDatabase env (pre ++ bad :: post) w).2,
      e.row ≠ some pre.length) ∧
    (insertIntoDatabase env (pre ++ bad :: post) w).1 =
      (insertIntoDatabase env (pre ++ post) w).1 ∧
    (w.since (insertIntoDatabase env (pre ++ bad :: post) w).2).map Issued.ev =
      (w.since (insertIntoDatabase env (pre ++ post) w).2).map Issued.ev ∧
    (insertIntoDatabase env (pre ++ bad :: post) w).2.store =
      (insertIntoDatabase env (pre ++ post) w).2.store ∧
    (insertIntoDatabase env (pre ++ bad :: post) w).2.sheet =
      (insertIntoDatabase env (pre ++ post) w).2.sheet := by
  have hskip : skipRow bad = true := by
    rcases hbad with h | h
    · simp [skipRow, h]
    · simp [skipRow, h, JSVal.truthy]
  obtain ⟨hr, hag, hsh⟩ := insertIntoDatabase_sim id env env rfl rfl (fun _ _ => rfl)
    (SkipsOnly.remove pre post bad hskip) w w ⟨rfl, rfl⟩
  refine ⟨?_, hr, since_map_ev id hag.2, hag.1, hsh (fun _ => rfl) rfl⟩
  intro e he hrow
  have h := insertIntoDatabase_run env (pre ++ bad :: post) w
  generalize w.since (insertIntoDatabase env (pre ++ bad :: post) w).2 = evs at h he
  generalize (insertIntoDatabase env (pre ++ bad :: post) w).1 = r at h
  generalize (insertIntoDatabase env (pre ++ bad :: post) w).2.store = st1 at h
  cases h with
  | startFailed =>
    simp only [List.mem_singleton] at he
    subst he; cases hrow
  | started evs2 _ _ hrun =>
    rcases List.mem_cons.1 he with h1 | h2
    · subst h1; cases hrow
    · obtain ⟨_, row, hget, hsk⟩ := hrun.tagged_rows e h2 pre.length hrow
      simp only [Nat.sub_zero, List.get?_eq_getElem?, List.getElem?_append_right (le_refl _),
        Nat.sub_self, List.getElem?_cons_zero, Option.some.injEq] at hget
      subst hget
      rw [hskip] at hsk
      cases hsk

/-- Witness of C4: a row with an empty email between two valid rows. -/
theorem insertIntoDatabase_invalid_row_has_no_effect_witness :
    ((cell rowNoEmail 0).typeof ≠ "string" ∨ cell rowNoEmail 0 = .str "") ∧
    (insertIntoDatabase envAllOk ([rowPlain] ++ rowNoEmail :: [rowWithFile])
        (worldWith [rowPlain, rowNoEmail, rowWithFile])).2.store =
      (insertIntoDatabase envAllOk ([rowPlain] ++ [rowWithFile])
        (worldWith [rowPlain, rowNoEmail, rowWithFile])).2.store :=
  ⟨Or.inr rfl,
    (insertIntoDatabase_invalid_row_has_no_effect envAllOk [rowPlain] [rowWithFile] rowNoEmail
      (worldWith [rowPlain, rowNoEmail, rowWithFile]) (Or.inr rfl)).2.2.2.1⟩

/-- C5, evaluated on a sheet with a row without attachment followed by a row
whose download fails once: the first cycle clears the sheet after the first
insert and then rolls back; the next poll fetches the empty batch, not the two
rows; no later cycle stores anything, although every later call would
succeed; a failure-free processing of the batch commits two records. -/
theorem retry_after_rollback_finds_empty_sheet :
    (worldWith [rowPlain, rowWithFile]).since
        (loopBody envOneDownloadFails (worldWith [rowPlain, rowWithFile])).2 =
      [⟨none, .authorize true⟩, ⟨none, .valuesGet "Hoja1!B2:P" true⟩,
       ⟨none, .authorize true⟩, ⟨none, .query .startTransaction true⟩,
       ⟨some 0, .query (.insert (insertParams rowPlain .null .null)) true⟩,
       ⟨some 0, .clear "Hoja1!A2:P" true⟩,
       ⟨some 1, .download (.str "https://files.example/a.pdf") none⟩,
       ⟨none, .query .rollback true⟩, ⟨none, .sleep 60000⟩] ∧
    (loopBody envOneDownloadFails (worldWith [rowPlain, rowWithFile])).2.store =
      ⟨[], none⟩ ∧
    (fetchNewResponses envOneDownloadFails
      (loopBody envOneDownloadFails (worldWith [rowPlain, rowWithFile])).2).1 = .ok [] ∧
    (∀ n, (processResponsesAtIntervals envOneDownloadFails (n + 1)
      (worldWith [rowPlain, rowWithFile])).2.store = ⟨[], none⟩) ∧
    (insertIntoDatabase envAllOk [rowPlain, rowWithFile]
      (worldWith [rowPlain, rowWithFile])).2.store.committed =
      [insertParams rowPlain .null .null,
       insertParams rowWithFile (.buffer [80, 68, 70]) .null] := by
  refine ⟨by decide, by decide, by decide, ?_, by decide⟩
  intro n
  have h1 : (loopBody envOneDownloadFails (worldWith [rowPlain, rowWithFile])).1 = .ok () := by
    decide
  have h2 : (loopBody envOneDownloadFails (worldWith [rowPlain, rowWithFile])).2.sheet =
      none := by decide
  have h3 : (loopBody envOneDownloadFails (worldWith [rowPlain, rowWithFile])).2.store =
      ⟨[], none⟩ := by decide
  unfold processResponsesAtIntervals
  rcases hl : loopBody envOneDownloadFails (worldWith [rowPlain, rowWithFile]) with ⟨r, w1⟩
  rw [hl] at h1 h2 h3
  simp only at h1 h2 h3
  subst h1
  simp only
  rw [processResponsesAtIntervals_no_values envOneDownloadFails n w1 h2, h3]

/-- C6. In a poll cycle in which `fetchNewResponses` returns an empty batch,
the remote answer had no values or an empty array of rows, the calls of the
cycle are exactly the authorization, the read of the sheet and the sleep (no
`START TRANSACTION`, insert, `COMMIT`, `ROLLBACK` or clear), and the store
and the sheet are unchanged.  An answer without values is itself never an
error: `fetchNewResponses` then returns the empty batch unless the
authorization or the read failed. -/
theorem loopBody_empty_batch (env : Env) (w : World)
    (h : (fetchNewResponses env w).1 = .ok []) :
    (w.sheet = none ∨ w.sheet = some []) ∧
    w.since (loopBody env w).2 =
      [⟨none, .authorize true⟩, ⟨none, .valuesGet "Hoja1!B2:P" true⟩,
       ⟨none, .sleep 60000⟩] ∧
    (loopBody env w).1 = .ok () ∧
    (loopBody env w).2.store = w.store ∧ (loopBody env w).2.sheet = w.sheet ∧
    (∀ w0 : World, w0.sheet = none →
      (fetchNewResponses env w0).1 = .ok [] ∨ ∃ ev, ⟨none, ev⟩ ∈ w0.since
        (fetchNewResponses env w0).2 ∧
        (ev = .authorize false ∨ ev = .valuesGet "Hoja1!B2:P" false)) := by
  obtain ⟨hr, htr, hst, hsh⟩ := loopBody_run env w
  obtain ⟨htr2, hst2, hsh2, hv⟩ := pollOnce_empty env w h
  refine ⟨?_, ?_, hr, by rw [hst, hst2], by rw [hsh, hsh2], ?_⟩
  rotate_left 2
  · intro w0 h0
    rcases fetchNewResponses_run env w0 with ⟨msg, hf⟩ | ⟨msg, hf⟩ | hf
    · right
      refine ⟨.authorize false, ?_, Or.inl rfl⟩
      rw [hf, since_of_trace rfl]
      simp
    · right
      refine ⟨.valuesGet "Hoja1!B2:P" false, ?_, Or.inr rfl⟩
      rw [hf, since_of_trace rfl]
      simp
    · left
      rw [hf, h0]
      rfl
  · cases hs : w.sheet with
    | none => exact Or.inl rfl
    | some rows =>
      rw [hs] at hv
      exact Or.inr (by simpa using hv)
  · apply since_of_trace
    rw [htr, htr2]
    simp

/-- Witness of C6: the remote answer has no values, and `fetchNewResponses`
returns the empty batch, not an error. -/
theorem loopBody_empty_batch_witness :
    (fetchNewResponses envAllOk ⟨none, ⟨[], none⟩, [], []⟩).1 = .ok [] ∧
    (⟨none, ⟨[], none⟩, [], []⟩ : World).since
        (loopBody envAllOk ⟨none, ⟨[], none⟩, [], []⟩).2 =
      [⟨none, .authorize true⟩, ⟨none, .valuesGet "Hoja1!B2:P" true⟩,
       ⟨none, .sleep 60000⟩] :=
  ⟨by decide, (loopBody_empty_batch envAllOk ⟨none, ⟨[], none⟩, [], []⟩ (by decide)).2.1⟩

/-- C7. A clear that fails is not fatal: `deleteRowFromSpreadsheet` returns
normally whatever the clear does; the `try` block of a row whose clear fails
completes normally, so control does not pass to the `catch` that sends
`ROLLBACK`; and for every batch `insertIntoDatabase` has the same result,
issues the same calls apart from the outcomes of the clears, and leaves the
same store as in the environment that differs only in the outcomes of the
clears (in particular the one in which every clear succeeds). -/
theorem clear_failure_is_not_fatal (env : Env) (f : Nat → Bool) (data : List Row) (w : World) :
    (∀ (k : Option Nat) (sheetName : String) (w0 : World),
      (deleteRowFromSpreadsheet env k sheetName w0).1 = .ok ()) ∧
    (∀ (k : Nat) (row : Row) (w0 : World) (range : String),
      ⟨some k, .clear range false⟩ ∈ w0.since (tryRow env k row w0).2 →
      (tryRow env k row w0).1 = .ok ()) ∧
    (insertIntoDatabase env data w).1 = (insertIntoDatabase (env.withClearOk f) data w).1 ∧
    (insertIntoDatabase env data w).2.store =
      (insertIntoDatabase (env.withClearOk f) data w).2.store ∧
    (w.since (insertIntoDatabase env data w).2).map (fun e => e.ev.forgetClearOutcome) =
      (w.since (insertIntoDatabase (env.withClearOk f) data w).2).map
        (fun e => e.ev.forgetClearOutcome) := by
  refine ⟨?_, ?_, ?_⟩
  · intro k sheetName w0
    unfold deleteRowFromSpreadsheet
    split <;> rfl
  · intro k row w0 range hmem
    obtain ⟨evs, htr, hrun⟩ := tryRow_run env k row w0
    rw [since_of_trace htr] at hmem
    have hev := (mem_tagged hmem).2
    simp only at hev
    generalize (tryRow env k row w0).1 = r at hrun
    generalize (tryRow env k row w0).2.store = st1 at hrun
    generalize (tryRow env k row w0).2.sheet = sh1 at hrun
    have hres : ∀ {url v : JSVal} {l : List Event}, Resolved url v l →
        Event.clear range false ∉ l := by
      intro url v l hl
      cases hl with
      | absent _ => simp
      | fetched bytes _ => simp
    cases hrun with
    | skipped _ => simp at hev
    | cartaFailed _ _ => simp at hev
    | descargaFailed c e13 _ h13 _ =>
      simp only [List.mem_append, List.mem_singleton] at hev
      rcases hev with h | h
      · exact absurd h (hres h13)
      · cases h
    | insertFailed c d e13 e5 _ h13 h5 =>
      simp only [List.mem_append, List.mem_singleton] at hev
      rcases hev with (h | h) | h
      · exact absurd h (hres h13)
      · exact absurd h (hres h5)
      · cases h
    | inserted c d e13 e5 okc _ _ _ => rfl
  · obtain ⟨hr, hag, _⟩ := insertIntoDatabase_sim Event.forgetClearOutcome env
      (env.withClearOk f) rfl rfl (fun _ _ => rfl) (SkipsOnly.refl data) w w ⟨rfl, rfl⟩
    exact ⟨hr, hag.1, since_map_ev Event.forgetClearOutcome hag.2⟩

/-- Witness of C7: every clear fails, and the two rows are committed as they
are when every clear succeeds. -/
theorem clear_failure_is_not_fatal_witness :
    (⟨some 0, .clear "Hoja1!A2:P" false⟩ : Issued) ∈
      (worldWith [rowPlain, rowWithFile]).since
        (insertIntoDatabase envClearFails [rowPlain, rowWithFile]
          (worldWith [rowPlain, rowWithFile])).2 ∧
    (insertIntoDatabase envClearFails [rowPlain, rowWithFile]
      (worldWith [rowPlain, rowWithFile])).2.store =
      (insertIntoDatabase (envClearFails.withClearOk (fun _ => true))
        [rowPlain, rowWithFile] (worldWith [rowPlain, rowWithFile])).2.store ∧
    (insertIntoDatabase envClearFails [rowPlain, rowWithFile]
      (worldWith [rowPlain, rowWithFile])).2.store.committed =
      [insertParams rowPlain .null .null,
       insertParams rowWithFile (.buffer [80, 68, 70]) .null] :=
  ⟨by decide,
    (clear_failure_is_not_fatal envClearFails (fun _ => true) [rowPlain, rowWithFile]
      (worldWith [rowPlain, rowWithFile])).2.2.2.1,
    by decide⟩

/-- C8. Whatever the environment does, an iteration of the loop of
`processResponsesAtIntervals` returns normally, starts with the authorization
of a poll and ends with the sleep of one minute; and the loop run for `n`
iterations is never left through an error: it performs `n` full
iterations. -/
theorem processResponsesAtIntervals_never_stops (env : Env) (n : Nat) (w : World) :
    (∀ w0 : World, (loopBody env w0).1 = .ok () ∧
      (∃ ok middle, w0.since (loopBody env w0).2 =
        ⟨none, .authorize ok⟩ :: (middle ++ [⟨none, .sleep 60000⟩]))) ∧
    processResponsesAtIntervals env n w = (none, (fun v => (loopBody env v).2)^[n] w) := by
  have hbody : ∀ w0 : World, (loopBody env w0).1 = .ok () := fun w0 => (loopBody_run env w0).1
  refine ⟨fun w0 => ⟨hbody w0, ?_⟩, ?_⟩
  · obtain ⟨_, htr, _, _⟩ := loopBody_run env w0
    have hpoll : ∃ ok middle, (pollOnce env w0).2.trace =
        w0.trace ++ ⟨none, .authorize ok⟩ :: middle := by
      unfold pollOnce
      rcases fetchNewResponses_run env w0 with ⟨msg, hf⟩ | ⟨msg, hf⟩ | hf
      · rw [hf]; exact ⟨false, [], rfl⟩
      · rw [hf]; exact ⟨true, _, rfl⟩
      · rw [hf]
        simp only
        split_ifs
        · rcases ha : authorize env
            ⟨w0.sheet, w0.store, w0.trace ++ [⟨none, .authorize true⟩,
              ⟨none, .valuesGet "Hoja1!B2:P" true⟩], w0.log⟩ with ⟨r, w2⟩
          have hw2 : ∃ ok2, w2.trace = w0.trace ++ [⟨none, .authorize true⟩,
              ⟨none, .valuesGet "Hoja1!B2:P" true⟩] ++ [⟨none, .authorize ok2⟩] ∧
              w2.store = w0.store := by
            unfold authorize at ha
            simp only [World.emit, World.time] at ha
            split_ifs at ha <;> cases ha <;> exact ⟨_, rfl, rfl⟩
          obtain ⟨ok2, hw2, _⟩ := hw2
          cases r with
          | threw msg =>
            refine ⟨true, [⟨none, .valuesGet "Hoja1!B2:P" true⟩, ⟨none, .authorize ok2⟩], ?_⟩
            rw [ha]
            show w2.trace = _
            rw [hw2]
            simp
          | ok u =>
            obtain ⟨evs, hevs, _⟩ := insertIntoDatabase_trace env (w0.sheet.getD []) w2
            refine ⟨true, ⟨none, .valuesGet "Hoja1!B2:P" true⟩ :: ⟨none, .authorize ok2⟩ :: evs,
              ?_⟩
            rw [ha]
            show (insertIntoDatabase env (w0.sheet.getD []) w2).2.trace = _
            rw [hevs, hw2]
            simp
        · exact ⟨true, _, rfl⟩
    obtain ⟨ok, middle, hp⟩ := hpoll
    refine ⟨ok, middle, ?_⟩
    apply since_of_trace
    rw [htr, hp]
    simp
  · induction n generalizing w with
    | zero => rfl
    | succ n ih =>
      have h1 := hbody w
      unfold processResponsesAtIntervals
      rcases hl : loopBody env w with ⟨r, w1⟩
      rw [hl] at h1
      simp only at h1
      subst h1
      simp only [Function.iterate_succ, Function.comp_apply, hl]
      exact ih w1

/-- C9. Every insert that `insertIntoDatabase` issues for the row at position
`j` carries the 14 parameters built from that row, which passed validation:
parameters 0 to 4 and 6 to 12 are the cells at these positions, parameter 5
resolves cell 5 and parameter 13 resolves cell 13.  A resolved parameter is
`null` exactly when its cell is absent or empty, and then no download is
issued for it; otherwise it is the buffer a successful download of the cell
answered.  The calls of the row are, in this order, the download for cell 13
if any, the download for cell 5 if any, the insert, and then at most the
clear. -/
theorem insertIntoDatabase_insert_params (env : Env) (data : List Row) (w : World) (j : Nat)
    (params : List JSVal) (ok : Bool)
    (he : ⟨some j, .query (.insert params) ok⟩ ∈ w.since (insertIntoDatabase env data w).2) :
    ∃ row c d e13 e5 after,
      data.get? j = some row ∧ skipRow row = false ∧
      Resolved (cell row 13) c e13 ∧ Resolved (cell row 5) d e5 ∧
      (w.since (insertIntoDatabase env data w).2).filter (fun x => decide (x.row = some j)) =
        tagged j (e13 ++ e5 ++ .query (.insert params) ok :: after) ∧
      (after = [] ∨ ∃ okc, after = [.clear "Hoja1!A2:P" okc]) ∧
      params = [cell row 0, cell row 1, cell row 2, cell row 3, cell row 4, d, cell row 6,
        cell row 7, cell row 8, cell row 9, cell row 10, cell row 11, cell row 12, c] ∧
      (d = .null ↔ cell row 5 = .undefined ∨ cell row 5 = .str "") ∧
      (c = .null ↔ cell row 13 = .undefined ∨ cell row 13 = .str "") ∧
      (d = .null → e5 = []) ∧ (c = .null → e13 = []) ∧
      (d ≠ .null → ∃ bytes, d = .buffer bytes ∧ e5 = [.download (cell row 5) (some bytes)]) ∧
      (c ≠ .null → ∃ bytes, c = .buffer bytes ∧ e13 = [.download (cell row 13) (some bytes)]) := by
  have h := insertIntoDatabase_run env data w
  generalize w.since (insertIntoDatabase env data w).2 = evs at h he
  generalize (insertIntoDatabase env data w).1 = r at h
  generalize (insertIntoDatabase env data w).2.store = st1 at h
  have hres : ∀ {url v : JSVal} {l : List Event}, Resolved url v l →
      (v = .null → l = []) ∧
      (v ≠ .null → ∃ bytes, v = .buffer bytes ∧ l = [.download url (some bytes)]) := by
    intro url v l hl
    cases hl with
    | absent _ => simp
    | fetched bytes _ => simp
  cases h with
  | startFailed =>
    simp only [List.mem_singleton] at he
    cases he
  | started evs2 _ _ hrun =>
    have he2 : (⟨some j, .query (.insert params) ok⟩ : Issued) ∈ evs2 := by
      rcases List.mem_cons.1 he with h1 | h2
      · cases h1
      · exact h2
    obtain ⟨row, stj, shj, evsj, rj, stj1, shj1, hget, hrow, hfil⟩ :=
      hrun.row_events _ he2 j rfl
    have hmem : (⟨some j, .query (.insert params) ok⟩ : Issued) ∈ tagged j evsj := by
      rw [← hfil]
      exact List.mem_filter.2 ⟨he2, by simp⟩
    obtain ⟨hs, c, d, e13, e5, after, h13, h5, hp, hevs, hafter⟩ :=
      hrow.insert_shape params ok (mem_tagged hmem).2
    refine ⟨row, c, d, e13, e5, after, by simpa using hget, hs, h13, h5, ?_, hafter, ?_,
      ?_, ?_, (hres h5).1, (hres h13).1, (hres h5).2, (hres h13).2⟩
    · rw [List.filter_cons_of_neg (by simp), hfil, hevs]
    · rw [hp]; rfl
    · rw [h5.null_iff.1, cell_truthy_false_iff]
    · rw [h13.null_iff.1, cell_truthy_false_iff]

/-- Witness of C9: a row with both attachments, inserted at position 1. -/
theorem insertIntoDatabase_insert_params_witness :
    ∃ row c d e13 e5 after,
      [rowPlain, rowTwoFiles].get? 1 = some row ∧ skipRow row = false ∧
      Resolved (cell row 13) c e13 ∧ Resolved (cell row 5) d e5 ∧
      ((worldWith [rowPlain, rowTwoFiles]).since
        (insertIntoDatabase envAllOk [rowPlain, rowTwoFiles]
          (worldWith [rowPlain, rowTwoFiles])).2).filter (fun x => decide (x.row = some 1)) =
        tagged 1 (e13 ++ e5 ++
          .query (.insert (insertParams rowTwoFiles (.buffer [80, 68, 70])
            (.buffer [80, 68, 70]))) true :: after) ∧
      (after = [] ∨ ∃ okc, after = [.clear "Hoja1!A2:P" okc]) ∧
      insertParams rowTwoFiles (.buffer [80, 68, 70]) (.buffer [80, 68, 70]) =
        [cell row 0, cell row 1, cell row 2, cell row 3, cell row 4, d, cell row 6,
          cell row 7, cell row 8, cell row 9, cell row 10, cell row 11, cell row 12, c] ∧
      (d = .null ↔ cell row 5 = .undefined ∨ cell row 5 = .str "") ∧
      (c = .null ↔ cell row 13 = .undefined ∨ cell row 13 = .str "") ∧
      (d = .null → e5 = []) ∧ (c = .null → e13 = []) ∧
      (d ≠ .null → ∃ bytes, d = .buffer bytes ∧ e5 = [.download (cell row 5) (some bytes)]) ∧
      (c ≠ .null → ∃ bytes, c = .buffer bytes ∧ e13 = [.download (cell row 13) (some bytes)]) :=
  insertIntoDatabase_insert_params envAllOk [rowPlain, rowTwoFiles]
    (worldWith [rowPlain, rowTwoFiles]) 1
    (insertParams rowTwoFiles (.buffer [80, 68, 70]) (.buffer [80, 68, 70])) true (by decide)

/-- C10. When a download or an insert issued for the row at position `k`
fails, that call is followed by `ROLLBACK` and by nothing else, no call at all
is issued for a row at a position greater than `k`, and no `COMMIT` is
issued. -/
theorem insertIntoDatabase_stops_at_first_failure (env : Env) (data : List Row) (w : World)
    (k : Nat) (e : Issued)
    (he : e ∈ w.since (insertIntoDatabase env data w).2)
    (hk : e.row = some k) (hf : e.ev.rowCallFailed = true) :
    (∃ before ok, w.since (insertIntoDatabase env data w).2 =
      before ++ [e, ⟨none, .query .rollback ok⟩]) ∧
    (∀ e1 ∈ w.since (insertIntoDatabase env data w).2, ∀ i, e1.row = some i → i ≤ k) ∧
    (∀ e1 ∈ w.since (insertIntoDatabase env data w).2, ∀ ok, e1.ev ≠ .query .commit ok) := by
  have h := insertIntoDatabase_run env data w
  generalize w.since (insertIntoDatabase env data w).2 = evs at h he
  generalize (insertIntoDatabase env data w).1 = r at h
  generalize (insertIntoDatabase env data w).2.store = st1 at h
  cases h with
  | startFailed =>
    simp only [List.mem_singleton] at he
    subst he; cases hk
  | started evs2 _ _ hrun =>
    have he2 : e ∈ evs2 := by
      rcases List.mem_cons.1 he with h1 | h2
      · subst h1; cases hk
      · exact h2
    obtain ⟨⟨before, ok, hb⟩, htags, hcommit⟩ := hrun.stops_at_failure e he2 hf k hk
    refine ⟨⟨⟨none, .query .startTransaction true⟩ :: before, ok, by rw [hb]; rfl⟩, ?_, ?_⟩
    · intro e1 he1 i hi
      rcases List.mem_cons.1 he1 with h1 | h2
      · subst h1; cases hi
      · exact htags e1 h2 i hi
    · intro e1 he1 ok1 hc
      rcases List.mem_cons.1 he1 with h1 | h2
      · subst h1; cases hc
      · exact hcommit e1 h2 ok1 hc

/-- Witness of C10: the download of the row at position 1 fails, two more rows
follow. -/
theorem insertIntoDatabase_stops_at_first_failure_witness :
    (worldWith [rowPlain, rowWithFile, rowPlain, rowTwoFiles]).since
      (insertIntoDatabase envDownloadFails [rowPlain, rowWithFile, rowPlain, rowTwoFiles]
        (worldWith [rowPlain, rowWithFile, rowPlain, rowTwoFiles])).2 =
      [⟨none, .query .startTransaction true⟩,
       ⟨some 0, .query (.insert (insertParams rowPlain .null .null)) true⟩,
       ⟨some 0, .clear "Hoja1!A2:P" true⟩,
       ⟨some 1, .download (.str "https://files.example/a.pdf") none⟩,
       ⟨none, .query .rollback true⟩] ∧
    ∀ e1 ∈ (worldWith [rowPlain, rowWithFile, rowPlain, rowTwoFiles]).since
      (insertIntoDatabase envDownloadFails [rowPlain, rowWithFile, rowPlain, rowTwoFiles]
        (worldWith [rowPlain, rowWithFile, rowPlain, rowTwoFiles])).2,
      ∀ i, e1.row = some i → i ≤ 1 :=
  ⟨by decide,
    (insertIntoDatabase_stops_at_first_failure envDownloadFails
      [rowPlain, rowWithFile, rowPlain, rowTwoFiles]
      (worldWith [rowPlain, rowWithFile, rowPlain, rowTwoFiles]) 1
      ⟨some 1, .download (.str "https://files.example/a.pdf") none⟩
      (by decide) rfl rfl).2.1⟩

/-- C11. Transaction balance: when none of the `START TRANSACTION`, `COMMIT`
and `ROLLBACK` that `insertIntoDatabase` sends fails, the statements it sends
to the store are one `START TRANSACTION`, then only inserts, then one `COMMIT`
or one `ROLLBACK`: `START TRANSACTION` occurs exactly once, `COMMIT` and
`ROLLBACK` together exactly once, and every insert lies between the two.  The
function then returns, and it leaves no transaction open. -/
theorem insertIntoDatabase_transaction_balance (env : Env) (data : List Row) (w : World)
    (htxn : ∀ e ∈ w.since (insertIntoDatabase env data w).2, e.ev.txnFailed = false) :
    (∃ inserts fin,
      statements (w.since (insertIntoDatabase env data w).2) =
        .startTransaction :: (inserts ++ [fin]) ∧
      (∀ s ∈ inserts, ∃ params, s = .insert params) ∧
      (fin = .commit ∨ fin = .rollback)) ∧
    (statements (w.since (insertIntoDatabase env data w).2)).count .startTransaction = 1 ∧
    (statements (w.since (insertIntoDatabase env data w).2)).count .commit +
      (statements (w.since (insertIntoDatabase env data w).2)).count .rollback = 1 ∧
    (insertIntoDatabase env data w).1 = .ok () ∧
    (insertIntoDatabase env data w).2.store.pending = none := by
  have h := insertIntoDatabase_run env data w
  generalize w.since (insertIntoDatabase env data w).2 = evs at h htxn
  generalize (insertIntoDatabase env data w).1 = r at h
  generalize (insertIntoDatabase env data w).2.store = st1 at h
  cases h with
  | startFailed =>
    have := htxn ⟨none, .query .startTransaction false⟩ (List.mem_singleton.2 rfl)
    simp [Event.txnFailed] at this
  | started evs2 _ _ hrun =>
    obtain ⟨hr, hpend, inserts, fin, hst, hins, hfin⟩ :=
      hrun.balanced [] (by simp [Store.exec])
        (fun e he => htxn e (List.mem_cons_of_mem _ he))
    have hshape : statements ((⟨none, .query .startTransaction true⟩ : Issued) :: evs2) =
        .startTransaction :: (inserts ++ [fin]) := by
      have := statements_append [(⟨none, .query .startTransaction true⟩ : Issued)] evs2
      simp only [List.singleton_append] at this
      rw [this, hst]
      rfl
    have hnotin : ∀ s : Stmt, (∀ params, s ≠ .insert params) → inserts.count s = 0 := by
      intro s hs
      apply List.count_eq_zero_of_not_mem
      intro hmem
      obtain ⟨params, hp⟩ := hins s hmem
      exact hs params hp
    refine ⟨⟨inserts, fin, hshape, hins, hfin⟩, ?_, ?_, hr, hpend⟩
    · rw [hshape, List.count_cons, List.count_append,
        hnotin .startTransaction (fun _ h => by cases h)]
      rcases hfin with h | h <;> subst h <;> decide
    · rw [hshape, List.count_cons, List.count_cons, List.count_append, List.count_append,
        hnotin .commit (fun _ h => by cases h), hnotin .rollback (fun _ h => by cases h)]
      rcases hfin with h | h <;> subst h <;> decide

/-- Witness of C11: a batch with no valid row sends `START TRANSACTION` and
`COMMIT` and nothing else; a batch whose second row fails sends `START
TRANSACTION`, one insert and `ROLLBACK`. -/
theorem insertIntoDatabase_transaction_balance_witness :
    statements ((worldWith [rowNoEmail]).since
      (insertIntoDatabase envAllOk [rowNoEmail] (worldWith [rowNoEmail])).2) =
      [.startTransaction, .commit] ∧
    (insertIntoDatabase envAllOk [rowNoEmail]
      (worldWith [rowNoEmail])).2.store.pending = none ∧
    statements ((worldWith [rowPlain, rowWithFile]).since
      (insertIntoDatabase envDownloadFails [rowPlain, rowWithFile]
        (worldWith [rowPlain, rowWithFile])).2) =
      [.startTransaction, .insert (insertParams rowPlain .null .null), .rollback] :=
  ⟨by decide,
    (insertIntoDatabase_transaction_balance envAllOk [rowNoEmail] (worldWith [rowNoEmail])
      (by decide)).2.2.2.2,
    by decide⟩

end PEA
